import Mathlib

/-!
# Verification of the Kanban task-ordering engine

A shallow embedding of the drag-and-drop ordering logic of the Life PM
application.  The definitions below are translated from the library-based
board implementation (`BoardView`, the `@hello-pangea/dnd` variant): the
column projection `tasksByStatus`, the drop handler `handleDragEnd`, and the
update emission loop, together with the task-list CRUD helper `updateTask`
from the application context.

JavaScript numbers are modelled as `Int`; a missing `order` field
(`t.order ?? Number.MAX_SAFE_INTEGER`) is `Option Int`; `createdAt` is the
epoch-millisecond value of `new Date(t.createdAt).getTime()`.  The stable
JavaScript `Array.prototype.sort` is stable; it is modelled by the stable
`List.insertionSort` (a stable sort is determined up to extensional equality
by the comparator, so any stable sort is a faithful model; insertion sort is
structurally recursive, which keeps the model executable by the kernel).  `updatedTasks[idx] = {...}` after `idx = findIndex(...)` is
modelled by `updateFirst`, which rewrites the first matching element.
-/

namespace LifePM

/-- A task, restricted to the fields that the board and the context CRUD
touch: identity, lifecycle status, manual order, timestamps, and a
representative descriptive field (`title`). -/
structure Task where
  id : String
  status : String
  order : Option Int
  createdAt : Int
  updatedAt : Int
  completedAt : Option Int := none
  title : String := ""
deriving Repr, DecidableEq

/-- The fixed column set of the board (`COLUMNS` in both board variants). -/
def COLUMNS : List String := ["backlog", "todo", "in-progress", "blocked", "done"]

/-- `COLUMNS.some(c => c.id === s)`. -/
def isValidStatus (s : String) : Bool := COLUMNS.contains s

/-- `t.order ?? Number.MAX_SAFE_INTEGER`. -/
def orderKey (t : Task) : Int := t.order.getD 9007199254740991

/-- The sort comparator used everywhere in the board:
`(a, b) => orderA - orderB`, falling back to `createdAt` on ties, read as a
total `le` for the stable sort. -/
def taskLe (a b : Task) : Bool :=
  decide (orderKey a < orderKey b) ||
    (decide (orderKey a = orderKey b) && decide (a.createdAt ≤ b.createdAt))

/-- The comparator as a decidable relation, for the sort. -/
def taskRel (a b : Task) : Prop := taskLe a b = true

instance : DecidableRel taskRel :=
  fun a b => inferInstanceAs (Decidable (taskLe a b = true))

/-- The stable sort used by the board. -/
def taskSort (l : List Task) : List Task := l.insertionSort taskRel

/-- One sorted column: the tasks of one status, sorted by
`(order, createdAt)`. -/
def col (s : String) (l : List Task) : List Task :=
  taskSort (l.filter (fun t => t.status == s))

/-- The id sequence of one sorted column. -/
def colIds (s : String) (l : List Task) : List String := (col s l).map Task.id

/-- The column projection `tasksByStatus`.  The source builds a record with
exactly the five `COLUMNS` keys and runs `grouped[task.status].push(task)`;
for a task whose `status` is outside the record's keys the lookup is
`undefined` and `.push` throws a `TypeError`, which is modelled by `none`. -/
def tasksByStatus (l : List Task) : Option (List (String × List Task)) :=
  if l.all (fun t => isValidStatus t.status) then
    some (COLUMNS.map (fun s => (s, col s l)))
  else
    none

/-- A droppable location of the drag result: `droppableId` (the column id)
and `index` (the visual position inside the column). -/
structure DropPos where
  droppableId : String
  index : Nat
deriving Repr, DecidableEq

/-- The `DropResult` delivered by the drag library. -/
structure DropResult where
  destination : Option DropPos
  source : DropPos
  draggableId : String
deriving Repr, DecidableEq

/-- Why `handleDragEnd` returned without touching the task list. -/
inductive IgnoreReason where
  | noDestination
  | samePosition
  | taskNotFound
  | invalidStatus
deriving Repr, DecidableEq

/-- The observable outcome of one `handleDragEnd` call: one of the early
`return`s, a thrown `TypeError` (`crashed`, reachable only from a
`DropResult` that is inconsistent with the task list), or the new task list
passed to `setLocalTasks`. -/
inductive DropOutcome where
  | ignored (why : IgnoreReason)
  | crashed
  | moved (updatedTasks : List Task)
deriving Repr, DecidableEq

/-- `l[idx] = f l[idx]` after `idx = l.findIndex(p)`, with the `idx === -1`
case leaving the array unchanged. -/
def updateFirst (p : Task → Bool) (f : Task → Task) : List Task → List Task
  | [] => []
  | a :: as => if p a then f a :: as else a :: updateFirst p f as

/-- One pending in-place array write: the id looked up with `findIndex` and
the rewrite applied to the found element. -/
abbrev TaskUpd := String × (Task → Task)

/-- A `for` loop of in-place writes over the (evolving) task array. -/
def applyUpds (upds : List TaskUpd) (l : List Task) : List Task :=
  upds.foldl (fun acc u => updateFirst (fun t => t.id == u.1) u.2 acc) l

/-- `splice(i, 1)` (removes the element at `i`; removes nothing when `i` is
past the end). -/
def spliceRemove (l : List α) (i : Nat) : List α := l.take i ++ l.drop (i + 1)

/-- `splice(i, 0, a)` (inserts `a` at `i`, clamped to the length). -/
def spliceInsert (l : List α) (i : Nat) (a : α) : List α :=
  l.take i ++ a :: l.drop i

/-- The write applied to the moved task on a cross-column move:
`{ ...task, status, order: destination.index, updatedAt: now }`. -/
def moveWrite (now : Int) (destinationStatus : String) (destinationIndex : Nat)
    (t : Task) : Task :=
  { t with
    status := destinationStatus,
    order := some (destinationIndex : Int),
    updatedAt := now }

/-- The unconditional write of the cross-column shift loops:
`{ ...t, order: i, updatedAt: now }`. -/
def shiftWrite (now : Int) (i : Int) (t : Task) : Task :=
  { t with order := some i, updatedAt := now }

/-- The guarded write of the same-column renumber loop: write only when the
stored `order` differs from the new index. -/
def renumberWrite (now : Int) (i : Int) (t : Task) : Task :=
  if t.order == some i then t else { t with order := some i, updatedAt := now }

/-- The writes of one cross-column shift `for` loop
(`for (let i = d; i < X.length; i++)`): for each position `i ≥ d` of the
sorted column `X`, look the task up by id and store `order := g i`. -/
def posShiftUpds (now : Int) (X : List Task) (d : Nat) (g : Nat → Int) :
    List TaskUpd :=
  (X.enum.drop d).map (fun p => (p.2.id, shiftWrite now (g p.1)))

/-- Stage 1 of a cross-column move: rewrite the moved task in place
(`updatedTasks[taskIndex] = { ...task, status, order: destination.index }`). -/
def crossU1 (now : Int) (localTasks : List Task) (taskId destinationStatus :
    String) (destinationIndex : Nat) : List Task :=
  updateFirst (fun t => t.id == taskId)
    (moveWrite now destinationStatus destinationIndex) localTasks

/-- The `tasksInDestination` array: destination-column tasks other than the
moved one, sorted by the board comparator. -/
def crossDestSorted (now : Int) (localTasks : List Task)
    (taskId destinationStatus : String) (destinationIndex : Nat) :
    List Task :=
  taskSort
    ((crossU1 now localTasks taskId destinationStatus destinationIndex).filter
      (fun t => t.status == destinationStatus && t.id != taskId))

/-- Stage 2: the destination shift loop (`order := i + 1` from
`destination.index` on). -/
def crossU2 (now : Int) (localTasks : List Task)
    (taskId destinationStatus : String) (destinationIndex : Nat) :
    List Task :=
  applyUpds
    (posShiftUpds now
      (crossDestSorted now localTasks taskId destinationStatus
        destinationIndex)
      destinationIndex (fun i => (i : Int) + 1))
    (crossU1 now localTasks taskId destinationStatus destinationIndex)

/-- The `tasksInSource` array: source-column tasks other than the moved one,
sorted by the board comparator, recomputed after stage 2. -/
def crossSrcSorted (now : Int) (localTasks : List Task)
    (taskId sourceStatus destinationStatus : String)
    (destinationIndex : Nat) : List Task :=
  taskSort
    ((crossU2 now localTasks taskId destinationStatus destinationIndex).filter
      (fun t => t.status == sourceStatus && t.id != taskId))

/-- The cross-column arm of `handleDragEnd`: rewrite the moved task's
`status` and `order`, then run the two shift `for` loops (destination tasks
at or after `destinationIndex` get `order := i + 1`; remaining source tasks
at or after `sourceIndex` get `order := i`, with `i` the position in the
freshly sorted column). -/
def crossColumnMove (now : Int) (localTasks : List Task)
    (taskId sourceStatus destinationStatus : String)
    (sourceIndex destinationIndex : Nat) : List Task :=
  applyUpds
    (posShiftUpds now
      (crossSrcSorted now localTasks taskId sourceStatus destinationStatus
        destinationIndex)
      sourceIndex (fun i => (i : Int)))
    (crossU2 now localTasks taskId destinationStatus destinationIndex)

/-- The same-column arm of `handleDragEnd`: sort the column,
`splice(oldIndex, 1)` the moved task out, `splice(newIndex, 0, ...)` it back
in, then renumber the whole column, writing only the tasks whose `order`
changes.  The source reads `const [movedTask] = tasksInStatus.splice(...)`;
when `oldIndex` is past the end `movedTask` is `undefined` and the
subsequent `t.id` access throws, modelled by `none`. -/
def sameColumnReorder (now : Int) (localTasks : List Task)
    (sourceStatus : String) (oldIndex newIndex : Nat) :
    Option (List Task) :=
  let tasksInStatus :=
    taskSort (localTasks.filter (fun t => t.status == sourceStatus))
  match tasksInStatus[oldIndex]? with
  | none => none
  | some movedTask =>
    let removed := spliceRemove tasksInStatus oldIndex
    let reordered := spliceInsert removed newIndex movedTask
    let reorderUpds : List TaskUpd :=
      reordered.enum.map (fun p => (p.2.id, renumberWrite now (p.1 : Int)))
    some (applyUpds reorderUpds localTasks)

/-- The drop handler of the library-based `BoardView` (`handleDragEnd`):
no-op guards, status validation, then either the cross-column shift loops or
the same-column splice-and-renumber, producing the optimistic task list.
`now` is the clock value used for every `new Date().toISOString()`.
The `taskIndex === -1` re-check after a successful `find` is dead code and
is absorbed by `updateFirst`. -/
def handleDragEnd (now : Int) (localTasks : List Task) (r : DropResult) :
    DropOutcome :=
  match r.destination with
  | none => .ignored .noDestination
  | some destination =>
    if destination.droppableId == r.source.droppableId &&
        destination.index == r.source.index then
      .ignored .samePosition
    else
      match localTasks.find? (fun t => t.id == r.draggableId) with
      | none => .ignored .taskNotFound
      | some _task =>
        let sourceStatus := r.source.droppableId
        let destinationStatus := destination.droppableId
        if !isValidStatus sourceStatus || !isValidStatus destinationStatus then
          .ignored .invalidStatus
        else if sourceStatus != destinationStatus then
          .moved (crossColumnMove now localTasks r.draggableId sourceStatus
            destinationStatus r.source.index destination.index)
        else
          match sameColumnReorder now localTasks sourceStatus r.source.index
              destination.index with
          | none => .crashed
          | some u => .moved u

/-- One persisted write: `updateTaskStatus(id, status)` or
`updateTask(id, { order })`. -/
inductive Update where
  | setStatus (id : String) (status : String)
  | setOrder (id : String) (order : Option Int)
deriving Repr, DecidableEq

/-- The per-task part of the persistence loop after a move: diff one updated
task against the original snapshot and emit the status and/or order writes. -/
def taskUpdates (orig : List Task) (u : Task) : List Update :=
  match orig.find? (fun t => t.id == u.id) with
  | none => []
  | some o =>
    if o.status != u.status then
      Update.setStatus u.id u.status ::
        (if o.order != u.order then [Update.setOrder u.id u.order] else [])
    else if o.order != u.order then [Update.setOrder u.id u.order] else []

/-- The batch of writes emitted by `handleDragEnd` (the
`updatedTasks.forEach` loop diffing against the profile snapshot); the early
returns and the crash emit nothing. -/
def emittedUpdates (orig : List Task) : DropOutcome → List Update
  | .moved u => (u.map (taskUpdates orig)).flatten
  | _ => []

/-- The state of the board after the handler ran: the optimistic list on a
move, the untouched input otherwise. -/
def resultTasks (l : List Task) : DropOutcome → List Task
  | .moved u => u
  | _ => l

/-- A partial task update (`Partial<Task>` restricted to the fields of the
model); `none` is an absent key. -/
structure TaskPatch where
  status : Option String := none
  order : Option (Option Int) := none
  title : Option String := none
deriving Repr, DecidableEq

/-- `updateTask` from the application context: map over the profile's task
list, spread the patch over the matching task, stamp `updatedAt`, and set
`completedAt` when the task transitions into `done`. -/
def appUpdateTask (now : Int) (tasks : List Task) (id : String)
    (updates : TaskPatch) : List Task :=
  tasks.map (fun t =>
    if t.id == id then
      let merged : Task := { t with
        status := updates.status.getD t.status,
        order := updates.order.getD t.order,
        title := updates.title.getD t.title,
        updatedAt := now }
      if updates.status == some "done" && t.status != "done" then
        { merged with completedAt := some now }
      else
        merged
    else t)

/-! ### Derived notions used by the verification -/

/-- Strict comparison of sort keys. -/
def keyLt (a b : Task) : Prop := orderKey a < orderKey b

/-- A column is canonically numbered when the task at each position of the
sorted column stores exactly that position as its `order`. -/
def canonicalCol (s : String) (l : List Task) : Prop :=
  ∀ (i : Nat) (t : Task), (col s l)[i]? = some t → t.order = some (i : Int)

/-- The net effect of a loop of in-place writes on one element: apply, in
order, every write whose id matches. -/
def applyOne (upds : List TaskUpd) (t : Task) : Task :=
  upds.foldl (fun a u => if a.id == u.1 then u.2 a else a) t

/-- All writes of the batch preserve the task id. -/
def IdPres (upds : List TaskUpd) : Prop :=
  ∀ u ∈ upds, ∀ t : Task, (u.2 t).id = t.id

/-- All writes of the batch preserve the task status. -/
def StatusPres (upds : List TaskUpd) : Prop :=
  ∀ u ∈ upds, ∀ t : Task, (u.2 t).status = t.status

/-- Net per-element effect of stage 1 of a cross-column move. -/
def crossF1 (now : Int) (taskId destinationStatus : String)
    (destinationIndex : Nat) : Task → Task :=
  fun t => if t.id == taskId
    then moveWrite now destinationStatus destinationIndex t else t

/-- Net per-element effect of stages 1–2 of a cross-column move. -/
def crossG2 (now : Int) (localTasks : List Task)
    (taskId destinationStatus : String) (destinationIndex : Nat) :
    Task → Task :=
  fun t => applyOne
    (posShiftUpds now
      (crossDestSorted now localTasks taskId destinationStatus
        destinationIndex)
      destinationIndex (fun i => (i : Int) + 1))
    (crossF1 now taskId destinationStatus destinationIndex t)

/-- Net per-element effect of a whole cross-column move. -/
def crossG3 (now : Int) (localTasks : List Task)
    (taskId sourceStatus destinationStatus : String)
    (sourceIndex destinationIndex : Nat) : Task → Task :=
  fun t => applyOne
    (posShiftUpds now
      (crossSrcSorted now localTasks taskId sourceStatus destinationStatus
        destinationIndex)
      sourceIndex (fun i => (i : Int)))
    (crossG2 now localTasks taskId destinationStatus destinationIndex t)

/-! ### Concrete boards used by the examples -/

/-- A task literal with only the ordering-relevant fields set. -/
def mkTask (i s : String) (o : Option Int) (c : Int) : Task :=
  { id := i, status := s, order := o, createdAt := c, updatedAt := 0 }

/-- The spec's same-column example board: `[a(todo,0), b(todo,1), c(todo,2)]`. -/
def exThree : List Task :=
  [mkTask "a" "todo" (some 0) 1, mkTask "b" "todo" (some 1) 2,
    mkTask "c" "todo" (some 2) 3]

/-- The spec's cross-column example board: `[a(todo,0), b(done,0)]`. -/
def exTwo : List Task :=
  [mkTask "a" "todo" (some 0) 1, mkTask "b" "done" (some 0) 2]

/-- A board whose `todo` column is legally but non-contiguously numbered. -/
def exGap : List Task :=
  [mkTask "p" "todo" (some 10) 1, mkTask "T" "todo" (some 20) 2,
    mkTask "q" "todo" (some 30) 3]

/-- A board whose `done` column carries a non-contiguous order value. -/
def exDest5 : List Task :=
  [mkTask "T" "todo" (some 0) 1, mkTask "x" "done" (some 5) 2]

/-- A single-task board. -/
def exSolo : List Task := [mkTask "t1" "todo" (some 0) 1]

/-- A canonically numbered two-column board for the round trip. -/
def exRound : List Task :=
  [mkTask "p" "todo" (some 0) 1, mkTask "q" "todo" (some 1) 2,
    mkTask "z" "done" (some 0) 3]

/-- A non-canonically numbered board for the round-trip counterexample. -/
def exGapRound : List Task :=
  [mkTask "p" "todo" (some 10) 1, mkTask "T" "todo" (some 20) 2,
    mkTask "q" "todo" (some 30) 3, mkTask "z" "done" (some 0) 0]

/-- A board with a task whose status is outside the known set. -/
def exBadStatus : List Task := [mkTask "w" "archived" (some 0) 1]

/-! ### Comparator and sorting facts -/

theorem taskLe_trans (a b c : Task) : taskLe a b → taskLe b c → taskLe a c := by
  simp only [taskLe, Bool.or_eq_true, Bool.and_eq_true, decide_eq_true_eq]
  omega

theorem taskLe_total (a b : Task) : taskLe a b || taskLe b a := by
  simp only [taskLe, Bool.or_eq_true, Bool.and_eq_true, decide_eq_true_eq]
  omega

instance : IsAntisymm Task keyLt :=
  ⟨fun a b h h' => absurd (lt_trans h h') (lt_irrefl _)⟩

theorem pairwise_keyLt_of_taskLe {l : List Task}
    (h : l.Pairwise taskRel) (hk : (l.map orderKey).Nodup) :
    l.Pairwise keyLt := by
  have hne : l.Pairwise (fun a b => orderKey a ≠ orderKey b) :=
    List.pairwise_map.mp hk
  refine (h.and hne).imp ?_
  intro a b hab
  obtain ⟨h1, h2⟩ := hab
  unfold taskRel at h1
  simp only [taskLe, Bool.or_eq_true, Bool.and_eq_true, decide_eq_true_eq] at h1
  unfold keyLt
  omega

instance : IsTrans Task taskRel :=
  ⟨fun a b c => taskLe_trans a b c⟩

instance : IsTotal Task taskRel :=
  ⟨fun a b => by
    rcases Bool.or_eq_true_iff.mp (taskLe_total a b) with h | h
    · exact Or.inl h
    · exact Or.inr h⟩

/-- A list permuted to a strictly key-sorted list sorts to exactly that
list (stability is irrelevant when all keys are distinct). -/
theorem taskSort_eq_of_perm {l e : List Task} (hp : List.Perm l e)
    (he : e.Pairwise keyLt) : taskSort l = e := by
  have hperm : List.Perm (taskSort l) e :=
    (List.perm_insertionSort taskRel l).trans hp
  have hkey_e : (e.map orderKey).Nodup :=
    List.pairwise_map.mpr (he.imp fun h => ne_of_lt h)
  have hkey_m : ((taskSort l).map orderKey).Nodup :=
    ((hperm.map orderKey).nodup_iff).mpr hkey_e
  have hs : (taskSort l).Pairwise keyLt :=
    pairwise_keyLt_of_taskLe (List.sorted_insertionSort taskRel l) hkey_m
  exact List.eq_of_perm_of_sorted hperm hs he

/-! ### In-place update machinery -/

theorem map_eq_self {α : Type} {l : List α} {f : α → α}
    (h : ∀ t ∈ l, f t = t) : l.map f = l := by
  induction l with
  | nil => rfl
  | cons a as ih =>
    rw [List.map_cons, h a (by simp), ih fun t ht => h t (by simp [ht])]

theorem id_inj {l : List Task} (hn : (l.map Task.id).Nodup) {a b : Task}
    (ha : a ∈ l) (hb : b ∈ l) (hid : a.id = b.id) : a = b :=
  List.inj_on_of_nodup_map hn ha hb hid

theorem eq_of_find?_id {l : List Task} {k : String} {task t : Task}
    (hn : (l.map Task.id).Nodup)
    (hf : l.find? (fun t => t.id == k) = some task)
    (ht : t ∈ l) (hid : t.id = k) : t = task := by
  have h1 : task ∈ l := List.mem_of_find?_eq_some hf
  have h2 : task.id = k := by simpa [beq_iff_eq] using List.find?_some hf
  exact id_inj hn ht h1 (hid.trans h2.symm)

theorem updateFirst_eq_map {k : String} {f : Task → Task} :
    ∀ {l : List Task}, (l.map Task.id).Nodup →
      updateFirst (fun t => t.id == k) f l =
        l.map (fun t => if t.id == k then f t else t)
  | [], _ => rfl
  | a :: as, h => by
    simp only [List.map_cons, List.nodup_cons] at h
    by_cases ha : a.id = k
    · have hrest : ∀ t ∈ as, (if t.id == k then f t else t) = t := by
        intro t ht
        have hne : t.id ≠ k := fun e =>
          h.1 (by rw [ha, ← e]; exact List.mem_map_of_mem Task.id ht)
        simp [hne]
      simp only [updateFirst, List.map_cons, ha, if_pos, beq_self_eq_true,
        if_true, map_eq_self hrest]
    · have hb : (a.id == k) = false := by simpa using ha
      simp only [updateFirst, List.map_cons, hb, Bool.false_eq_true,
        if_false, updateFirst_eq_map h.2]

theorem applyOne_cons (u : TaskUpd) (us : List TaskUpd) (t : Task) :
    applyOne (u :: us) t = applyOne us (if t.id == u.1 then u.2 t else t) :=
  rfl

theorem applyOne_id {upds : List TaskUpd} (hp : IdPres upds) (t : Task) :
    (applyOne upds t).id = t.id := by
  induction upds generalizing t with
  | nil => rfl
  | cons u us ih =>
    rw [applyOne_cons]
    have hp' : IdPres us := fun v hv => hp v (by simp [hv])
    rw [ih hp']
    by_cases h : (t.id == u.1) = true
    · simp [h, hp u (by simp)]
    · simp [h]

theorem applyOne_status {upds : List TaskUpd} (hp : StatusPres upds)
    (t : Task) : (applyOne upds t).status = t.status := by
  induction upds generalizing t with
  | nil => rfl
  | cons u us ih =>
    rw [applyOne_cons]
    have hp' : StatusPres us := fun v hv => hp v (by simp [hv])
    rw [ih hp']
    by_cases h : (t.id == u.1) = true
    · simp [h, hp u (by simp)]
    · simp [h]

theorem applyOne_not_mem {upds : List TaskUpd} {t : Task}
    (h : ∀ u ∈ upds, u.1 ≠ t.id) : applyOne upds t = t := by
  induction upds with
  | nil => rfl
  | cons u us ih =>
    rw [applyOne_cons]
    have hne : (t.id == u.1) = false :=
      beq_eq_false_iff_ne.mpr (Ne.symm (h u (by simp)))
    rw [hne]
    simp only [Bool.false_eq_true, if_false]
    exact ih fun v hv => h v (by simp [hv])

theorem applyOne_mem {upds : List TaskUpd} {k : String} {f : Task → Task}
    {t : Task} (hk : (upds.map Prod.fst).Nodup) (hp : IdPres upds)
    (hm : (k, f) ∈ upds) (ht : t.id = k) : applyOne upds t = f t := by
  induction upds with
  | nil => cases hm
  | cons u us ih =>
    simp only [List.map_cons, List.nodup_cons] at hk
    rw [applyOne_cons]
    rcases List.mem_cons.mp hm with he | hm'
    · subst he
      have hc : (t.id == k) = true := by simpa using ht
      simp only [hc, if_true]
      apply applyOne_not_mem
      intro v hv e
      have hfid : (f t).id = t.id := hp (k, f) (by simp) t
      apply hk.1
      have hv1 : v.1 = k := by rw [e, hfid, ht]
      exact List.mem_map.mpr ⟨v, hv, hv1⟩
    · have hu1 : u.1 ≠ k := by
        intro e
        apply hk.1
        rw [e]
        have : (k, f).1 ∈ us.map Prod.fst := List.mem_map_of_mem Prod.fst hm'
        exact this
      have hc : (t.id == u.1) = false :=
        beq_eq_false_iff_ne.mpr fun e => hu1 (e.symm.trans ht)
      rw [hc]
      simp only [Bool.false_eq_true, if_false]
      exact ih hk.2 (fun v hv => hp v (by simp [hv])) hm'

theorem applyUpds_eq_map {upds : List TaskUpd} :
    ∀ {l : List Task}, (l.map Task.id).Nodup → IdPres upds →
      applyUpds upds l = l.map (applyOne upds) := by
  induction upds with
  | nil =>
    intro l _ _
    exact (map_eq_self fun t _ => rfl).symm
  | cons u us ih =>
    intro l hn hp
    have step : applyUpds (u :: us) l =
        applyUpds us (updateFirst (fun t => t.id == u.1) u.2 l) := rfl
    rw [step, updateFirst_eq_map hn]
    have hgid : ∀ t : Task, ((if t.id == u.1 then u.2 t else t)).id = t.id := by
      intro t
      by_cases h : (t.id == u.1) = true
      · simp [h, hp u (by simp)]
      · simp [h]
    have hn' : ((l.map fun t => if t.id == u.1 then u.2 t else t).map
        Task.id).Nodup := by
      rw [List.map_map]
      have he : l.map (Task.id ∘ fun t => if t.id == u.1 then u.2 t else t) =
          l.map Task.id := List.map_congr_left fun t _ => hgid t
      rw [he]
      exact hn
    have hp' : IdPres us := fun v hv => hp v (by simp [hv])
    rw [ih hn' hp', List.map_map]
    exact List.map_congr_left fun t _ => rfl

/-! ### Enumeration, splice and column helpers -/

theorem enum_drop {α : Type} (l : List α) (n : Nat) :
    l.enum.drop n = (l.drop n).enumFrom n := by
  apply List.ext_getElem?
  intro m
  simp [List.getElem?_drop, List.getElem?_enumFrom, Nat.add_comm]

theorem mem_enumFrom_of_getElem? {α : Type} {l : List α} {n k : Nat} {t : α}
    (h : l[k]? = some t) : (n + k, t) ∈ l.enumFrom n :=
  List.getElem?_mem
    (show (l.enumFrom n)[k]? = some (n + k, t) by
      simp [List.getElem?_enumFrom, h])

theorem keys_of_posUpds {X : List Task} {n : Nat}
    {f : Nat × Task → Task → Task} :
    ((X.enumFrom n).map (fun p => (p.2.id, f p))).map Prod.fst =
      X.map Task.id := by
  rw [List.map_map]
  have h1 : (Prod.fst ∘ fun p : Nat × Task => (p.2.id, f p)) =
      (Task.id ∘ Prod.snd) := rfl
  rw [h1, ← List.map_map, List.enumFrom_map_snd]

theorem map_enumFrom_eq {α β : Type} (X : List α) (g : α → β)
    (f : Nat → α → β) (n : Nat)
    (h : ∀ (k : Nat) (t : α), X[k]? = some t → g t = f (n + k) t) :
    X.map g = (X.enumFrom n).map (fun p => f p.1 p.2) := by
  apply List.ext_getElem?
  intro m
  rw [List.getElem?_map, List.getElem?_map, List.getElem?_enumFrom]
  cases hx : X[m]? with
  | none => rfl
  | some t => simp [h m t hx]

theorem lt_length_of_getElem? {α : Type} {l : List α} {i : Nat} {a : α}
    (h : l[i]? = some a) : i < l.length := by
  by_contra hc
  simp [List.getElem?_eq_none (Nat.le_of_not_lt hc)] at h

theorem eq_take_cons_drop {α : Type} {l : List α} {i : Nat} {a : α}
    (h : l[i]? = some a) : l = l.take i ++ a :: l.drop (i + 1) := by
  have hi : i < l.length := lt_length_of_getElem? h
  have hd := List.drop_eq_getElem_cons hi
  have ha : l[i] = a := by simpa [List.getElem?_eq_getElem hi] using h
  conv_lhs => rw [← List.take_append_drop i l]
  rw [hd, ha]

theorem length_take_of_getElem? {α : Type} {l : List α} {i : Nat} {a : α}
    (h : l[i]? = some a) : (l.take i).length = i := by
  simp [List.length_take]
  exact Nat.le_of_lt (lt_length_of_getElem? h)

theorem spliceRemove_take {α : Type} {l : List α} {i : Nat} {a : α}
    (h : l[i]? = some a) : (spliceRemove l i).take i = l.take i := by
  unfold spliceRemove
  exact List.take_left' (length_take_of_getElem? h)

theorem spliceRemove_drop {α : Type} {l : List α} {i : Nat} {a : α}
    (h : l[i]? = some a) : (spliceRemove l i).drop i = l.drop (i + 1) := by
  unfold spliceRemove
  exact List.drop_left' (length_take_of_getElem? h)

theorem perm_spliceRemove {α : Type} {l : List α} {i : Nat} {a : α}
    (h : l[i]? = some a) : List.Perm l (a :: spliceRemove l i) := by
  conv_lhs => rw [eq_take_cons_drop h]
  exact List.perm_middle

theorem perm_spliceInsert {α : Type} (l : List α) (i : Nat) (a : α) :
    List.Perm (spliceInsert l i a) (a :: l) := by
  unfold spliceInsert
  calc List.Perm (l.take i ++ a :: l.drop i) (a :: (l.take i ++ l.drop i)) :=
    List.perm_middle
  _ = a :: l := by rw [List.take_append_drop]

theorem spliceInsert_spliceRemove {α : Type} {l : List α} {i : Nat} {a : α}
    (h : l[i]? = some a) : spliceInsert (spliceRemove l i) i a = l := by
  unfold spliceInsert
  rw [spliceRemove_take h, spliceRemove_drop h]
  exact (eq_take_cons_drop h).symm

theorem col_perm_filter (s : String) (l : List Task) :
    List.Perm (col s l) (l.filter (fun t => t.status == s)) :=
  List.perm_insertionSort taskRel _

theorem nodup_ids_filter {l : List Task} {p : Task → Bool}
    (h : (l.map Task.id).Nodup) : ((l.filter p).map Task.id).Nodup :=
  h.sublist ((List.filter_sublist l).map Task.id)

theorem nodup_ids_col {s : String} {l : List Task}
    (h : (l.map Task.id).Nodup) : ((col s l).map Task.id).Nodup :=
  (((col_perm_filter s l).map Task.id).nodup_iff).mpr (nodup_ids_filter h)

theorem mem_col {s : String} {l : List Task} {t : Task} :
    t ∈ col s l ↔ t ∈ l ∧ t.status = s := by
  unfold col taskSort
  rw [List.mem_insertionSort, List.mem_filter]
  simp [beq_iff_eq]

theorem pairwise_keyLt_col {s : String} {l : List Task}
    (hc : canonicalCol s l) : (col s l).Pairwise keyLt := by
  rw [List.pairwise_iff_getElem]
  intro i j hi hj hij
  have hoi := hc i _ (List.getElem?_eq_getElem hi)
  have hoj := hc j _ (List.getElem?_eq_getElem hj)
  show orderKey _ < orderKey _
  simp only [orderKey, hoi, hoj, Option.getD_some]
  exact_mod_cast hij

theorem find?_self_of_nodup {l : List Task} {t : Task}
    (hn : (l.map Task.id).Nodup) (ht : t ∈ l) :
    l.find? (fun x => x.id == t.id) = some t := by
  induction l with
  | nil => cases ht
  | cons a as ih =>
    simp only [List.map_cons, List.nodup_cons] at hn
    rcases List.mem_cons.mp ht with he | hm
    · subst he
      simp [List.find?_cons]
    · have hne : a.id ≠ t.id := fun e =>
        hn.1 (by rw [e]; exact List.mem_map_of_mem Task.id hm)
      have hb : (a.id == t.id) = false := beq_eq_false_iff_ne.mpr hne
      simp only [List.find?_cons, hb]
      exact ih hn.2 hm

theorem find?_map_of_idPres {l : List Task} {k : String} {a : Task}
    {G : Task → Task} (hgid : ∀ t : Task, (G t).id = t.id)
    (hf : l.find? (fun t => t.id == k) = some a) :
    (l.map G).find? (fun t => t.id == k) = some (G a) := by
  induction l with
  | nil => simp at hf
  | cons x xs ih =>
    by_cases hx : (x.id == k) = true
    · simp only [List.find?_cons, hx] at hf
      simp only [List.map_cons, List.find?_cons, hgid x, hx]
      rw [Option.some.injEq] at hf
      rw [hf]
    · have hx' : (x.id == k) = false := by simpa using hx
      simp only [List.find?_cons, hx'] at hf
      simp only [List.map_cons, List.find?_cons, hgid x, hx']
      exact ih hf

/-! ### Facts about the three write shapes -/

theorem renumberWrite_id (now i : Int) (t : Task) :
    (renumberWrite now i t).id = t.id := by
  unfold renumberWrite
  split <;> rfl

theorem renumberWrite_status (now i : Int) (t : Task) :
    (renumberWrite now i t).status = t.status := by
  unfold renumberWrite
  split <;> rfl

theorem renumberWrite_createdAt (now i : Int) (t : Task) :
    (renumberWrite now i t).createdAt = t.createdAt := by
  unfold renumberWrite
  split <;> rfl

theorem renumberWrite_order (now i : Int) (t : Task) :
    (renumberWrite now i t).order = some i := by
  unfold renumberWrite
  split
  · next h => exact beq_iff_eq.mp h
  · rfl

theorem shiftWrite_id (now i : Int) (t : Task) :
    (shiftWrite now i t).id = t.id := rfl

theorem shiftWrite_status (now i : Int) (t : Task) :
    (shiftWrite now i t).status = t.status := rfl

theorem shiftWrite_order (now i : Int) (t : Task) :
    (shiftWrite now i t).order = some i := rfl

theorem moveWrite_id (now : Int) (ds : String) (di : Nat) (t : Task) :
    (moveWrite now ds di t).id = t.id := rfl

/-! ### Facts about the shift-loop write batches -/

theorem posShiftUpds_eq (now : Int) (X : List Task) (d : Nat)
    (g : Nat → Int) :
    posShiftUpds now X d g =
      ((X.drop d).enumFrom d).map
        (fun p => (p.2.id, shiftWrite now (g p.1))) := by
  unfold posShiftUpds
  rw [enum_drop]

theorem IdPres_posShift {now : Int} {X : List Task} {d : Nat}
    {g : Nat → Int} : IdPres (posShiftUpds now X d g) := by
  intro u hu t
  rw [posShiftUpds_eq] at hu
  rcases List.mem_map.mp hu with ⟨p, _, he⟩
  rw [← he]
  rfl

theorem StatusPres_posShift {now : Int} {X : List Task} {d : Nat}
    {g : Nat → Int} : StatusPres (posShiftUpds now X d g) := by
  intro u hu t
  rw [posShiftUpds_eq] at hu
  rcases List.mem_map.mp hu with ⟨p, _, he⟩
  rw [← he]
  rfl

theorem keys_posShift (now : Int) (X : List Task) (d : Nat) (g : Nat → Int) :
    (posShiftUpds now X d g).map Prod.fst = (X.drop d).map Task.id := by
  rw [posShiftUpds_eq]
  exact keys_of_posUpds

theorem applyOne_posShift_hit {now : Int} {X : List Task} {d : Nat}
    {g : Nat → Int} {k : Nat} {t : Task}
    (hX : ((X.drop d).map Task.id).Nodup) (hk : (X.drop d)[k]? = some t) :
    applyOne (posShiftUpds now X d g) t = shiftWrite now (g (d + k)) t := by
  have hkeys : ((posShiftUpds now X d g).map Prod.fst).Nodup := by
    rw [keys_posShift]
    exact hX
  have hpair : (t.id, shiftWrite now (g (d + k))) ∈ posShiftUpds now X d g := by
    rw [posShiftUpds_eq]
    exact List.mem_map_of_mem _ (mem_enumFrom_of_getElem? hk)
  exact applyOne_mem hkeys IdPres_posShift hpair rfl

theorem applyOne_posShift_miss {now : Int} {X : List Task} {d : Nat}
    {g : Nat → Int} {t : Task} (h : t.id ∉ (X.drop d).map Task.id) :
    applyOne (posShiftUpds now X d g) t = t := by
  apply applyOne_not_mem
  intro u hu he
  apply h
  have hmem : u.1 ∈ (posShiftUpds now X d g).map Prod.fst :=
    List.mem_map_of_mem Prod.fst hu
  rw [keys_posShift] at hmem
  rw [← he]
  exact hmem

theorem applyOne_posShift_miss_status {now : Int} {X : List Task} {d : Nat}
    {g : Nat → Int} {l : List Task} {t : Task} {s : String}
    (hn : (l.map Task.id).Nodup) (hXl : ∀ w ∈ X, w ∈ l ∧ w.status = s)
    (ht : t ∈ l) (hts : t.status ≠ s) :
    applyOne (posShiftUpds now X d g) t = t := by
  apply applyOne_posShift_miss
  intro hmem
  rcases List.mem_map.mp hmem with ⟨w, hw, he⟩
  rcases hXl w (List.drop_subset d X hw) with ⟨hwl, hws⟩
  have hwt : w = t := id_inj hn hwl ht he
  rw [hwt] at hws
  exact hts hws

theorem pairwise_keyLt_of_key_eq {X : List Task} (φ : Nat → Int)
    (h : ∀ (k : Nat) (hk : k < X.length), orderKey X[k] = φ k)
    (hmono : ∀ i j : Nat, i < j → φ i < φ j) : X.Pairwise keyLt := by
  rw [List.pairwise_iff_getElem]
  intro i j hi hj hij
  show orderKey _ < orderKey _
  rw [h i hi, h j hj]
  exact hmono i j hij

/-! ### Cross-column stage analysis -/

theorem crossF1_id (now : Int) (taskId dst : String) (di : Nat) (t : Task) :
    (crossF1 now taskId dst di t).id = t.id := by
  unfold crossF1
  split <;> rfl

theorem crossG2_id (now : Int) (l : List Task) (taskId dst : String)
    (di : Nat) (t : Task) : (crossG2 now l taskId dst di t).id = t.id := by
  unfold crossG2
  rw [applyOne_id IdPres_posShift, crossF1_id]

theorem crossG3_id (now : Int) (l : List Task) (taskId src dst : String)
    (si di : Nat) (t : Task) :
    (crossG3 now l taskId src dst si di t).id = t.id := by
  unfold crossG3
  rw [applyOne_id IdPres_posShift, crossG2_id]

theorem ids_map_of_idPres {l : List Task} {G : Task → Task}
    (h : ∀ t : Task, (G t).id = t.id) :
    (l.map G).map Task.id = l.map Task.id := by
  rw [List.map_map]
  exact List.map_congr_left fun t _ => h t

theorem crossU1_map {now : Int} {l : List Task} {taskId dst : String}
    {di : Nat} (hn : (l.map Task.id).Nodup) :
    crossU1 now l taskId dst di = l.map (crossF1 now taskId dst di) :=
  updateFirst_eq_map hn

theorem crossU2_map {now : Int} {l : List Task} {taskId dst : String}
    {di : Nat} (hn : (l.map Task.id).Nodup) :
    crossU2 now l taskId dst di = l.map (crossG2 now l taskId dst di) := by
  unfold crossU2
  rw [crossU1_map hn]
  have hn1 : ((l.map (crossF1 now taskId dst di)).map Task.id).Nodup := by
    rw [ids_map_of_idPres (crossF1_id now taskId dst di)]
    exact hn
  rw [applyUpds_eq_map hn1 IdPres_posShift, List.map_map]
  exact List.map_congr_left fun t _ => rfl

theorem crossMove_map {now : Int} {l : List Task} {taskId src dst : String}
    {si di : Nat} (hn : (l.map Task.id).Nodup) :
    crossColumnMove now l taskId src dst si di =
      l.map (crossG3 now l taskId src dst si di) := by
  unfold crossColumnMove
  rw [crossU2_map hn]
  have hn2 : ((l.map (crossG2 now l taskId dst di)).map Task.id).Nodup := by
    rw [ids_map_of_idPres (crossG2_id now l taskId dst di)]
    exact hn
  rw [applyUpds_eq_map hn2 IdPres_posShift, List.map_map]
  exact List.map_congr_left fun t _ => rfl

theorem crossF1_of_ne {now : Int} {taskId dst : String} {di : Nat} {t : Task}
    (h : t.id ≠ taskId) : crossF1 now taskId dst di t = t := by
  unfold crossF1
  rw [beq_eq_false_iff_ne.mpr h]
  simp

theorem crossF1_task {now : Int} {taskId dst : String} {di : Nat} {t : Task}
    (h : t.id = taskId) :
    crossF1 now taskId dst di t = moveWrite now dst di t := by
  unfold crossF1
  rw [beq_iff_eq.mpr h]
  simp

theorem crossDestSorted_eq {now : Int} {l : List Task}
    {taskId src dst : String} {di : Nat} {task : Task}
    (hn : (l.map Task.id).Nodup)
    (hfind : l.find? (fun t => t.id == taskId) = some task)
    (hst : task.status = src) (hsd : src ≠ dst) :
    crossDestSorted now l taskId dst di = col dst l := by
  unfold crossDestSorted col
  congr 1
  rw [crossU1_map hn, List.filter_map]
  have h1 : l.filter ((fun t => t.status == dst && t.id != taskId) ∘
      crossF1 now taskId dst di) = l.filter (fun t => t.status == dst) := by
    apply List.filter_congr
    intro t htl
    show ((crossF1 now taskId dst di t).status == dst &&
      (crossF1 now taskId dst di t).id != taskId) = (t.status == dst)
    by_cases hid : t.id = taskId
    · have hteq : t = task := eq_of_find?_id hn hfind htl hid
      rw [crossF1_task hid]
      have h2 : ((moveWrite now dst di t).id != taskId) = false := by
        simp [moveWrite, bne, hid]
      have h3 : (t.status == dst) = false := by
        rw [hteq, hst]
        exact beq_eq_false_iff_ne.mpr hsd
      simp [h2, h3]
    · rw [crossF1_of_ne hid]
      have h2 : (t.id != taskId) = true := by simp [bne, hid]
      simp [h2]
  rw [h1]
  apply map_eq_self
  intro t ht
  rcases List.mem_filter.mp ht with ⟨htl, hts⟩
  apply crossF1_of_ne
  intro he
  have hteq : t = task := eq_of_find?_id hn hfind htl he
  rw [hteq, hst] at hts
  exact hsd (beq_iff_eq.mp hts)

theorem crossG2_task {now : Int} {l : List Task} {taskId src dst : String}
    {di : Nat} {task : Task} (hn : (l.map Task.id).Nodup)
    (hfind : l.find? (fun t => t.id == taskId) = some task)
    (hst : task.status = src) (hsd : src ≠ dst) :
    crossG2 now l taskId dst di task = moveWrite now dst di task := by
  have htask_id : task.id = taskId := by
    simpa [beq_iff_eq] using List.find?_some hfind
  unfold crossG2
  rw [crossF1_task htask_id, crossDestSorted_eq hn hfind hst hsd]
  apply applyOne_posShift_miss
  intro hmem
  rcases List.mem_map.mp hmem with ⟨w, hw, he⟩
  rcases mem_col.mp (List.drop_subset di (col dst l) hw) with ⟨hwl, hws⟩
  have hwid : w.id = task.id := by
    rw [he]
    show (moveWrite now dst di task).id = task.id
    rfl
  have : w = task := id_inj hn hwl (List.mem_of_find?_eq_some hfind)
    (by rw [hwid])
  rw [this, hst] at hws
  exact hsd hws

theorem crossG2_of_status_ne {now : Int} {l : List Task}
    {taskId src dst : String} {di : Nat} {task : Task} {t : Task}
    (hn : (l.map Task.id).Nodup)
    (hfind : l.find? (fun t => t.id == taskId) = some task)
    (hst : task.status = src) (hsd : src ≠ dst)
    (htl : t ∈ l) (hid : t.id ≠ taskId) (hts : t.status ≠ dst) :
    crossG2 now l taskId dst di t = t := by
  unfold crossG2
  rw [crossF1_of_ne hid, crossDestSorted_eq hn hfind hst hsd]
  exact applyOne_posShift_miss_status hn (fun w hw => mem_col.mp hw) htl hts

theorem crossG2_status {now : Int} {l : List Task} {taskId dst : String}
    {di : Nat} {t : Task} (hid : t.id ≠ taskId) :
    (crossG2 now l taskId dst di t).status = t.status := by
  unfold crossG2
  rw [applyOne_status StatusPres_posShift, crossF1_of_ne hid]

theorem crossG2_dest_take {now : Int} {l : List Task}
    {taskId src dst : String} {di : Nat} {task : Task} {t : Task}
    (hn : (l.map Task.id).Nodup)
    (hfind : l.find? (fun t => t.id == taskId) = some task)
    (hst : task.status = src) (hsd : src ≠ dst)
    (ht : t ∈ (col dst l).take di) :
    crossG2 now l taskId dst di t = t := by
  have htcol : t ∈ col dst l := List.take_subset di (col dst l) ht
  rcases mem_col.mp htcol with ⟨htl, hts⟩
  have hid : t.id ≠ taskId := by
    intro he
    have hteq : t = task := eq_of_find?_id hn hfind htl he
    rw [hteq, hst] at hts
    exact hsd hts
  unfold crossG2
  rw [crossF1_of_ne hid, crossDestSorted_eq hn hfind hst hsd]
  apply applyOne_posShift_miss
  intro hmem
  have hsplit : ((col dst l).map Task.id).Nodup := nodup_ids_col hn
  rw [← List.take_append_drop di (col dst l), List.map_append] at hsplit
  have hdisj := List.disjoint_of_nodup_append hsplit
  exact hdisj (List.mem_map_of_mem Task.id ht) hmem

theorem crossG2_dest_drop {now : Int} {l : List Task}
    {taskId src dst : String} {di : Nat} {task : Task} {k : Nat} {t : Task}
    (hn : (l.map Task.id).Nodup)
    (hfind : l.find? (fun t => t.id == taskId) = some task)
    (hst : task.status = src) (hsd : src ≠ dst)
    (hk : ((col dst l).drop di)[k]? = some t) :
    crossG2 now l taskId dst di t =
      shiftWrite now (((di + k : Nat) : Int) + 1) t := by
  have htcol : t ∈ col dst l :=
    List.drop_subset di (col dst l) (List.getElem?_mem hk)
  rcases mem_col.mp htcol with ⟨htl, hts⟩
  have hid : t.id ≠ taskId := by
    intro he
    have hteq : t = task := eq_of_find?_id hn hfind htl he
    rw [hteq, hst] at hts
    exact hsd hts
  unfold crossG2
  rw [crossF1_of_ne hid, crossDestSorted_eq hn hfind hst hsd]
  have hids : (((col dst l).drop di).map Task.id).Nodup :=
    (nodup_ids_col hn).sublist ((List.drop_sublist di (col dst l)).map Task.id)
  exact applyOne_posShift_hit hids hk

theorem crossU2_filter_src {now : Int} {l : List Task}
    {taskId src dst : String} {di : Nat} {task : Task}
    (hn : (l.map Task.id).Nodup)
    (hfind : l.find? (fun t => t.id == taskId) = some task)
    (hst : task.status = src) (hsd : src ≠ dst) :
    (crossU2 now l taskId dst di).filter
        (fun t => t.status == src && t.id != taskId) =
      l.filter (fun t => t.status == src && t.id != taskId) := by
  rw [crossU2_map hn, List.filter_map]
  have h1 : l.filter ((fun t => t.status == src && t.id != taskId) ∘
      crossG2 now l taskId dst di) =
      l.filter (fun t => t.status == src && t.id != taskId) := by
    apply List.filter_congr
    intro t htl
    show ((crossG2 now l taskId dst di t).status == src &&
      (crossG2 now l taskId dst di t).id != taskId) =
      (t.status == src && t.id != taskId)
    by_cases hid : t.id = taskId
    · have hteq : t = task := eq_of_find?_id hn hfind htl hid
      rw [hteq, crossG2_task hn hfind hst hsd]
      have h2 : ((moveWrite now dst di task).status == src) = false := by
        show (dst == src) = false
        exact beq_eq_false_iff_ne.mpr (Ne.symm hsd)
      have h3 : (task.id != taskId) = false := by
        have : task.id = taskId := hteq ▸ hid
        simp [bne, this]
      simp [h2, h3]
    · rw [crossG2_status hid, crossG2_id]
  rw [h1]
  apply map_eq_self
  intro t ht
  rcases List.mem_filter.mp ht with ⟨htl, htp⟩
  rw [Bool.and_eq_true, beq_iff_eq, bne_iff_ne] at htp
  exact crossG2_of_status_ne hn hfind hst hsd htl htp.2
    (by rw [htp.1]; exact hsd)

theorem crossSrcSorted_eq {now : Int} {l : List Task}
    {taskId src dst : String} {si di : Nat} {task : Task}
    (hn : (l.map Task.id).Nodup)
    (hfind : l.find? (fun t => t.id == taskId) = some task)
    (hst : task.status = src) (hsd : src ≠ dst)
    (hcanS : canonicalCol src l) (hsi : (col src l)[si]? = some task) :
    crossSrcSorted now l taskId src dst di = spliceRemove (col src l) si := by
  have htask_id : task.id = taskId := by
    simpa [beq_iff_eq] using List.find?_some hfind
  have hcol : col src l =
      (col src l).take si ++ task :: (col src l).drop (si + 1) :=
    eq_take_cons_drop hsi
  have hids : ((col src l).map Task.id).Nodup := nodup_ids_col hn
  have hids2 : (((col src l).take si).map Task.id ++ task.id ::
      ((col src l).drop (si + 1)).map Task.id).Nodup := by
    rw [← List.map_cons, ← List.map_append, ← hcol]
    exact hids
  rcases List.nodup_append.mp hids2 with ⟨hA, hB, hdisj⟩
  unfold crossSrcSorted
  rw [crossU2_filter_src hn hfind hst hsd]
  apply taskSort_eq_of_perm
  · have e1 : l.filter (fun t => t.status == src && t.id != taskId) =
        (l.filter (fun t => t.status == src)).filter
          (fun t => t.id != taskId) := by
      rw [List.filter_filter]
      apply List.filter_congr
      intro t _
      exact Bool.and_comm _ _
    have e2 : List.Perm
        ((l.filter (fun t => t.status == src)).filter
          (fun t => t.id != taskId))
        ((col src l).filter (fun t => t.id != taskId)) :=
      ((col_perm_filter src l).symm.filter _)
    have e3 : (col src l).filter (fun t => t.id != taskId) =
        spliceRemove (col src l) si := by
      conv_lhs => rw [hcol]
      rw [List.filter_append, List.filter_cons]
      have htf : (task.id != taskId) = false := by simp [bne, htask_id]
      rw [htf]
      simp only [Bool.false_eq_true, if_false]
      have hfa : ((col src l).take si).filter (fun t => t.id != taskId) =
          (col src l).take si := by
        rw [List.filter_eq_self]
        intro a ha
        have : a.id ≠ taskId := by
          intro he
          apply hdisj (List.mem_map_of_mem Task.id ha)
          rw [he, ← htask_id]
          exact List.mem_cons_self task.id _
        simpa [bne] using this
      have hfb : ((col src l).drop (si + 1)).filter
          (fun t => t.id != taskId) = (col src l).drop (si + 1) := by
        rw [List.filter_eq_self]
        intro a ha
        have : a.id ≠ taskId := by
          intro he
          rcases List.nodup_cons.mp hB with ⟨hB1, _⟩
          apply hB1
          rw [htask_id, ← he]
          exact List.mem_map_of_mem Task.id ha
        simpa [bne] using this
      rw [hfa, hfb]
      rfl
    rw [e1]
    exact e2.trans (by rw [e3])
  · have hsub : List.Sublist (spliceRemove (col src l) si) (col src l) := by
      conv_rhs => rw [hcol]
      unfold spliceRemove
      exact (List.append_sublist_append_left _).mpr
        (List.sublist_cons_self task _)
    exact (pairwise_keyLt_col hcanS).sublist hsub

theorem crossSrcSorted_mem {now : Int} {l : List Task}
    {taskId src dst : String} {di : Nat} {w : Task}
    (hn : (l.map Task.id).Nodup)
    (hw : w ∈ crossSrcSorted now l taskId src dst di) :
    ∃ t' ∈ l, w = crossG2 now l taskId dst di t' ∧ w.status = src ∧
      w.id ≠ taskId := by
  unfold crossSrcSorted taskSort at hw
  rw [List.mem_insertionSort, List.mem_filter] at hw
  obtain ⟨hwu, hwp⟩ := hw
  rw [crossU2_map hn] at hwu
  rcases List.mem_map.mp hwu with ⟨t', ht', he⟩
  rw [Bool.and_eq_true, beq_iff_eq, bne_iff_ne] at hwp
  exact ⟨t', ht', he.symm, hwp.1, hwp.2⟩

theorem crossG3_task {now : Int} {l : List Task} {taskId src dst : String}
    {si di : Nat} {task : Task} (hn : (l.map Task.id).Nodup)
    (hfind : l.find? (fun t => t.id == taskId) = some task)
    (hst : task.status = src) (hsd : src ≠ dst) :
    crossG3 now l taskId src dst si di task = moveWrite now dst di task := by
  have htask_id : task.id = taskId := by
    simpa [beq_iff_eq] using List.find?_some hfind
  unfold crossG3
  rw [crossG2_task hn hfind hst hsd]
  apply applyOne_posShift_miss
  intro hmem
  rcases List.mem_map.mp hmem with ⟨w, hw, he⟩
  rcases crossSrcSorted_mem hn (List.drop_subset si _ hw) with
    ⟨_, _, _, _, hwid⟩
  apply hwid
  rw [he]
  show (moveWrite now dst di task).id = taskId
  rw [← htask_id]
  rfl

theorem crossG3_status {now : Int} {l : List Task} {taskId src dst : String}
    {si di : Nat} {t : Task} (hid : t.id ≠ taskId) :
    (crossG3 now l taskId src dst si di t).status = t.status := by
  unfold crossG3
  rw [applyOne_status StatusPres_posShift, crossG2_status hid]

theorem crossG3_of_status_ne {now : Int} {l : List Task}
    {taskId src dst : String} {si di : Nat} {t : Task}
    (hn : (l.map Task.id).Nodup) (htl : t ∈ l) (hid : t.id ≠ taskId)
    (hts : t.status ≠ src) :
    crossG3 now l taskId src dst si di t =
      crossG2 now l taskId dst di t := by
  unfold crossG3
  apply applyOne_posShift_miss
  intro hmem
  rcases List.mem_map.mp hmem with ⟨w, hw, he⟩
  rcases crossSrcSorted_mem hn (List.drop_subset si _ hw) with
    ⟨t', ht', hwg, hwst, _⟩
  have hid' : t'.id = t.id := by
    rw [← crossG2_id now l taskId dst di t', ← hwg, he, crossG2_id]
  have ht't : t' = t := id_inj hn ht' htl hid'
  rw [ht't] at hwg
  rw [hwg, crossG2_status hid] at hwst
  exact hts hwst

theorem crossG3_src_take {now : Int} {l : List Task}
    {taskId src dst : String} {si di : Nat} {task t : Task}
    (hn : (l.map Task.id).Nodup)
    (hfind : l.find? (fun t => t.id == taskId) = some task)
    (hst : task.status = src) (hsd : src ≠ dst)
    (hcanS : canonicalCol src l) (hsi : (col src l)[si]? = some task)
    (ht : t ∈ (col src l).take si) :
    crossG3 now l taskId src dst si di t = t := by
  have htask_id : task.id = taskId := by
    simpa [beq_iff_eq] using List.find?_some hfind
  have hcol : col src l =
      (col src l).take si ++ task :: (col src l).drop (si + 1) :=
    eq_take_cons_drop hsi
  have hids2 : (((col src l).take si).map Task.id ++ task.id ::
      ((col src l).drop (si + 1)).map Task.id).Nodup := by
    rw [← List.map_cons, ← List.map_append, ← hcol]
    exact nodup_ids_col hn
  rcases List.nodup_append.mp hids2 with ⟨hA, hB, hdisj⟩
  have htcol : t ∈ col src l := List.take_subset si _ ht
  rcases mem_col.mp htcol with ⟨htl, hts⟩
  have hid : t.id ≠ taskId := by
    intro he
    apply hdisj (List.mem_map_of_mem Task.id ht)
    rw [he, ← htask_id]
    exact List.mem_cons_self task.id _
  have hG2 : crossG2 now l taskId dst di t = t :=
    crossG2_of_status_ne hn hfind hst hsd htl hid (by rw [hts]; exact hsd)
  unfold crossG3
  rw [hG2, crossSrcSorted_eq hn hfind hst hsd hcanS hsi]
  apply applyOne_posShift_miss
  rw [spliceRemove_drop hsi]
  intro hmem
  apply hdisj (List.mem_map_of_mem Task.id ht)
  exact List.mem_cons_of_mem task.id hmem

theorem crossG3_src_drop {now : Int} {l : List Task}
    {taskId src dst : String} {si di k : Nat} {task t : Task}
    (hn : (l.map Task.id).Nodup)
    (hfind : l.find? (fun t => t.id == taskId) = some task)
    (hst : task.status = src) (hsd : src ≠ dst)
    (hcanS : canonicalCol src l) (hsi : (col src l)[si]? = some task)
    (hk : ((col src l).drop (si + 1))[k]? = some t) :
    crossG3 now l taskId src dst si di t =
      shiftWrite now ((si + k : Nat) : Int) t := by
  have htask_id : task.id = taskId := by
    simpa [beq_iff_eq] using List.find?_some hfind
  have hcol : col src l =
      (col src l).take si ++ task :: (col src l).drop (si + 1) :=
    eq_take_cons_drop hsi
  have hids2 : (((col src l).take si).map Task.id ++ task.id ::
      ((col src l).drop (si + 1)).map Task.id).Nodup := by
    rw [← List.map_cons, ← List.map_append, ← hcol]
    exact nodup_ids_col hn
  rcases List.nodup_append.mp hids2 with ⟨hA, hB, hdisj⟩
  have htcol : t ∈ col src l :=
    List.drop_subset _ _ (List.getElem?_mem hk)
  rcases mem_col.mp htcol with ⟨htl, hts⟩
  have hid : t.id ≠ taskId := by
    intro he
    rcases List.nodup_cons.mp hB with ⟨hB1, _⟩
    apply hB1
    rw [htask_id, ← he]
    exact List.mem_map_of_mem Task.id (List.getElem?_mem hk)
  have hG2 : crossG2 now l taskId dst di t = t :=
    crossG2_of_status_ne hn hfind hst hsd htl hid (by rw [hts]; exact hsd)
  unfold crossG3
  rw [hG2, crossSrcSorted_eq hn hfind hst hsd hcanS hsi]
  have hids3 : (((spliceRemove (col src l) si).drop si).map Task.id).Nodup := by
    rw [spliceRemove_drop hsi]
    exact (nodup_ids_col hn).sublist
      ((List.drop_sublist (si + 1) (col src l)).map Task.id)
  have hk' : ((spliceRemove (col src l) si).drop si)[k]? = some t := by
    rw [spliceRemove_drop hsi]
    exact hk
  exact applyOne_posShift_hit hids3 hk'

/-- Splitting off the moved task: filtering on "`p` or the moved id" is a
permutation of the moved task consed onto the plain `p`-filter, when the
moved task itself fails `p`. -/
theorem filter_orId_perm {l : List Task} {task : Task} {taskId : String}
    {p : Task → Bool} (hn : (l.map Task.id).Nodup)
    (hfind : l.find? (fun t => t.id == taskId) = some task)
    (hp : p task = false) :
    List.Perm (l.filter (fun t => p t || t.id == taskId))
      (task :: l.filter p) := by
  have htask_id : task.id = taskId := by
    simpa [beq_iff_eq] using List.find?_some hfind
  have htask_mem : task ∈ l := List.mem_of_find?_eq_some hfind
  rcases List.append_of_mem htask_mem with ⟨l1, l2, hl⟩
  subst hl
  have hids : ((l1.map Task.id) ++ task.id :: (l2.map Task.id)).Nodup := by
    rw [← List.map_cons, ← List.map_append]
    exact hn
  rcases List.nodup_append.mp hids with ⟨_, hB, hdisj⟩
  have hne1 : ∀ t ∈ l1, (t.id == taskId) = false := by
    intro t ht
    apply beq_eq_false_iff_ne.mpr
    intro he
    apply hdisj (List.mem_map_of_mem Task.id ht)
    rw [he, ← htask_id]
    exact List.mem_cons_self task.id _
  have hne2 : ∀ t ∈ l2, (t.id == taskId) = false := by
    intro t ht
    apply beq_eq_false_iff_ne.mpr
    intro he
    rcases List.nodup_cons.mp hB with ⟨hB1, _⟩
    apply hB1
    rw [htask_id, ← he]
    exact List.mem_map_of_mem Task.id ht
  have hf1 : ∀ t ∈ l1, (p t || t.id == taskId) = p t := by
    intro t ht
    rw [hne1 t ht, Bool.or_false]
  have hf2 : ∀ t ∈ l2, (p t || t.id == taskId) = p t := by
    intro t ht
    rw [hne2 t ht, Bool.or_false]
  rw [List.filter_append, List.filter_cons, List.filter_append,
    List.filter_cons]
  have hptask : (p task || task.id == taskId) = true := by
    rw [htask_id]
    simp
  rw [hptask, hp]
  simp only [if_true, Bool.false_eq_true, if_false]
  rw [List.filter_congr hf1, List.filter_congr hf2]
  exact List.perm_middle

/-- The source-column filter of the full task list is a permutation of the
sorted source column with the moved task spliced out. -/
theorem filter_src_perm {l : List Task} {task : Task} {taskId src : String}
    {si : Nat} (hn : (l.map Task.id).Nodup)
    (hfind : l.find? (fun t => t.id == taskId) = some task)
    (hsi : (col src l)[si]? = some task) :
    List.Perm (l.filter (fun t => t.status == src && t.id != taskId))
      (spliceRemove (col src l) si) := by
  have htask_id : task.id = taskId := by
    simpa [beq_iff_eq] using List.find?_some hfind
  have hcol : col src l =
      (col src l).take si ++ task :: (col src l).drop (si + 1) :=
    eq_take_cons_drop hsi
  have hids2 : (((col src l).take si).map Task.id ++ task.id ::
      ((col src l).drop (si + 1)).map Task.id).Nodup := by
    rw [← List.map_cons, ← List.map_append, ← hcol]
    exact nodup_ids_col hn
  rcases List.nodup_append.mp hids2 with ⟨hA, hB, hdisj⟩
  have e1 : l.filter (fun t => t.status == src && t.id != taskId) =
      (l.filter (fun t => t.status == src)).filter
        (fun t => t.id != taskId) := by
    rw [List.filter_filter]
    apply List.filter_congr
    intro t _
    exact Bool.and_comm _ _
  have e2 : List.Perm
      ((l.filter (fun t => t.status == src)).filter (fun t => t.id != taskId))
      ((col src l).filter (fun t => t.id != taskId)) :=
    ((col_perm_filter src l).symm.filter _)
  have e3 : (col src l).filter (fun t => t.id != taskId) =
      spliceRemove (col src l) si := by
    conv_lhs => rw [hcol]
    rw [List.filter_append, List.filter_cons]
    have htf : (task.id != taskId) = false := by simp [bne, htask_id]
    rw [htf]
    simp only [Bool.false_eq_true, if_false]
    have hfa : ((col src l).take si).filter (fun t => t.id != taskId) =
        (col src l).take si := by
      rw [List.filter_eq_self]
      intro a ha
      have : a.id ≠ taskId := by
        intro he
        apply hdisj (List.mem_map_of_mem Task.id ha)
        rw [he, ← htask_id]
        exact List.mem_cons_self task.id _
      simpa [bne] using this
    have hfb : ((col src l).drop (si + 1)).filter
        (fun t => t.id != taskId) = (col src l).drop (si + 1) := by
      rw [List.filter_eq_self]
      intro a ha
      have : a.id ≠ taskId := by
        intro he
        rcases List.nodup_cons.mp hB with ⟨hB1, _⟩
        apply hB1
        rw [htask_id, ← he]
        exact List.mem_map_of_mem Task.id ha
      simpa [bne] using this
    rw [hfa, hfb]
    rfl
  rw [e1]
  exact e2.trans (by rw [e3])

theorem moveWrite_order (now : Int) (ds : String) (di : Nat) (t : Task) :
    (moveWrite now ds di t).order = some (di : Int) := rfl

theorem moveWrite_status (now : Int) (ds : String) (di : Nat) (t : Task) :
    (moveWrite now ds di t).status = ds := rfl

theorem crossMove_moved {now : Int} {l : List Task} {taskId src dst : String}
    {si di : Nat} {task : Task} (hn : (l.map Task.id).Nodup)
    (hfind : l.find? (fun t => t.id == taskId) = some task)
    (hst : task.status = src) (hsd : src ≠ dst) :
    (crossColumnMove now l taskId src dst si di).find?
        (fun t => t.id == taskId) = some (moveWrite now dst di task) := by
  rw [crossMove_map hn]
  have h := find?_map_of_idPres (crossG3_id now l taskId src dst si di) hfind
  rw [crossG3_task hn hfind hst hsd] at h
  exact h

theorem crossMove_ids {now : Int} {l : List Task} {taskId src dst : String}
    {si di : Nat} (hn : (l.map Task.id).Nodup) :
    (crossColumnMove now l taskId src dst si di).map Task.id =
      l.map Task.id := by
  rw [crossMove_map hn]
  exact ids_map_of_idPres (crossG3_id now l taskId src dst si di)

theorem mem_take_pos {α : Type} {l : List α} {n : Nat} {a : α}
    (h : a ∈ l.take n) : ∃ k : Nat, k < n ∧ l[k]? = some a := by
  rcases List.mem_iff_getElem?.mp h with ⟨k, hk⟩
  have hklt : k < (l.take n).length := lt_length_of_getElem? hk
  rw [List.length_take] at hklt
  have hkn : k < n := lt_of_lt_of_le hklt (min_le_left n l.length)
  rw [List.getElem?_take_of_lt hkn] at hk
  exact ⟨k, hkn, hk⟩

/-- In a cross-column move, every column other than the source and the
destination is untouched. -/
theorem crossColumn_other {now : Int} {l : List Task}
    {taskId src dst : String} {si di : Nat} {task : Task}
    (hn : (l.map Task.id).Nodup)
    (hfind : l.find? (fun t => t.id == taskId) = some task)
    (hst : task.status = src) (hsd : src ≠ dst)
    (s2 : String) (h2src : s2 ≠ src) (h2dst : s2 ≠ dst) :
    (crossColumnMove now l taskId src dst si di).filter
        (fun t => t.status == s2) = l.filter (fun t => t.status == s2) := by
  rw [crossMove_map hn, List.filter_map]
  have h1 : l.filter ((fun t => t.status == s2) ∘
      crossG3 now l taskId src dst si di) =
      l.filter (fun t => t.status == s2) := by
    apply List.filter_congr
    intro t htl
    show ((crossG3 now l taskId src dst si di t).status == s2) =
      (t.status == s2)
    by_cases hid : t.id = taskId
    · have hteq : t = task := eq_of_find?_id hn hfind htl hid
      rw [hteq, crossG3_task hn hfind hst hsd]
      have hL : ((moveWrite now dst di task).status == s2) = false := by
        rw [moveWrite_status]
        exact beq_eq_false_iff_ne.mpr (Ne.symm h2dst)
      have hR : (task.status == s2) = false := by
        rw [hst]
        exact beq_eq_false_iff_ne.mpr (Ne.symm h2src)
      rw [hL, hR]
    · rw [crossG3_status hid]
  rw [h1]
  apply map_eq_self
  intro t ht
  rcases List.mem_filter.mp ht with ⟨htl, hts⟩
  have hts2 : t.status = s2 := beq_iff_eq.mp hts
  have hid : t.id ≠ taskId := by
    intro he
    have hteq : t = task := eq_of_find?_id hn hfind htl he
    rw [hteq, hst] at hts2
    exact h2src hts2.symm
  rw [crossG3_of_status_ne hn htl hid (by rw [hts2]; exact h2src)]
  exact crossG2_of_status_ne hn hfind hst hsd htl hid
    (by rw [hts2]; exact h2dst)

/-- In a cross-column move, the source column loses the moved task and the
tasks after it are renumbered to close the gap. -/
theorem crossColumn_src {now : Int} {l : List Task}
    {taskId src dst : String} {si di : Nat} {task : Task}
    (hn : (l.map Task.id).Nodup)
    (hfind : l.find? (fun t => t.id == taskId) = some task)
    (hst : task.status = src) (hsd : src ≠ dst)
    (hcanS : canonicalCol src l) (hsi : (col src l)[si]? = some task) :
    col src (crossColumnMove now l taskId src dst si di) =
      (col src l).take si ++ (((col src l).drop (si + 1)).enumFrom si).map
        (fun p => shiftWrite now (p.1 : Int) p.2) := by
  rw [crossMove_map hn]
  show taskSort ((l.map (crossG3 now l taskId src dst si di)).filter
    (fun t => t.status == src)) = _
  rw [List.filter_map]
  have h1 : l.filter ((fun t => t.status == src) ∘
      crossG3 now l taskId src dst si di) =
      l.filter (fun t => t.status == src && t.id != taskId) := by
    apply List.filter_congr
    intro t htl
    show ((crossG3 now l taskId src dst si di t).status == src) =
      (t.status == src && t.id != taskId)
    by_cases hid : t.id = taskId
    · have hteq : t = task := eq_of_find?_id hn hfind htl hid
      rw [hteq, crossG3_task hn hfind hst hsd]
      have hL : ((moveWrite now dst di task).status == src) = false := by
        rw [moveWrite_status]
        exact beq_eq_false_iff_ne.mpr (Ne.symm hsd)
      have hR : (task.id != taskId) = false := by
        have := hteq ▸ hid
        simp [bne, this]
      rw [hL, hR, Bool.and_false]
    · have hR : (t.id != taskId) = true := by simpa [bne] using hid
      rw [crossG3_status hid, hR, Bool.and_true]
  rw [h1]
  apply taskSort_eq_of_perm
  · have hperm : List.Perm
        ((l.filter (fun t => t.status == src && t.id != taskId)).map
          (crossG3 now l taskId src dst si di))
        ((spliceRemove (col src l) si).map
          (crossG3 now l taskId src dst si di)) :=
      (filter_src_perm hn hfind hsi).map _
    have hmapped : (spliceRemove (col src l) si).map
        (crossG3 now l taskId src dst si di) =
        (col src l).take si ++
          (((col src l).drop (si + 1)).enumFrom si).map
            (fun p => shiftWrite now (p.1 : Int) p.2) := by
      unfold spliceRemove
      rw [List.map_append]
      congr 1
      · apply map_eq_self
        intro t ht
        exact crossG3_src_take hn hfind hst hsd hcanS hsi ht
      · exact map_enumFrom_eq ((col src l).drop (si + 1))
          (crossG3 now l taskId src dst si di)
          (fun i t => shiftWrite now (i : Int) t) si
          (fun k t hk => crossG3_src_drop hn hfind hst hsd hcanS hsi hk)
    exact hperm.trans (by rw [hmapped])
  · rw [List.pairwise_append]
    refine ⟨(pairwise_keyLt_col hcanS).sublist
      (List.take_sublist si (col src l)), ?_, ?_⟩
    · apply pairwise_keyLt_of_key_eq (fun k => ((si + k : Nat) : Int))
      · intro k hk
        have hlen : k < ((col src l).drop (si + 1)).length := by
          simpa using hk
        have he : ((((col src l).drop (si + 1)).enumFrom si).map
            (fun p => shiftWrite now (p.1 : Int) p.2))[k] =
            shiftWrite now ((si + k : Nat) : Int)
              ((col src l).drop (si + 1))[k] := by
          simp [List.getElem_map, List.getElem_enumFrom, hlen]
        rw [he]
        show orderKey _ = ((si + k : Nat) : Int)
        simp [orderKey, shiftWrite]
      · intro i j hij
        have : si + i < si + j := by omega
        exact_mod_cast this
    · intro a ha b hb
      rcases mem_take_pos ha with ⟨k, hkn, hk⟩
      have hka : a.order = some (k : Int) := hcanS k a hk
      have hkeya : orderKey a = (k : Int) := by
        simp [orderKey, hka]
      rcases List.mem_map.mp hb with ⟨p, hp, hpe⟩
      have hpfst : si ≤ p.1 := (List.mem_enumFrom hp).1
      have hkeyb : orderKey b = (p.1 : Int) := by
        rw [← hpe]
        simp [orderKey, shiftWrite]
      show orderKey a < orderKey b
      rw [hkeya, hkeyb]
      have : k < p.1 := by omega
      exact_mod_cast this

/-- In a cross-column move, the destination column gains the moved task at
`destinationIndex` (clamped by position) and the tasks at or after that
index are shifted one place down. -/
theorem crossColumn_dest {now : Int} {l : List Task}
    {taskId src dst : String} {si di : Nat} {task : Task}
    (hn : (l.map Task.id).Nodup)
    (hfind : l.find? (fun t => t.id == taskId) = some task)
    (hst : task.status = src) (hsd : src ≠ dst)
    (hcanD : canonicalCol dst l) :
    col dst (crossColumnMove now l taskId src dst si di) =
      (col dst l).take di ++ moveWrite now dst di task ::
        (((col dst l).drop di).enumFrom di).map
          (fun p => shiftWrite now ((p.1 : Int) + 1) p.2) := by
  rw [crossMove_map hn]
  show taskSort ((l.map (crossG3 now l taskId src dst si di)).filter
    (fun t => t.status == dst)) = _
  rw [List.filter_map]
  have h1 : l.filter ((fun t => t.status == dst) ∘
      crossG3 now l taskId src dst si di) =
      l.filter (fun t => t.status == dst || t.id == taskId) := by
    apply List.filter_congr
    intro t htl
    show ((crossG3 now l taskId src dst si di t).status == dst) =
      (t.status == dst || t.id == taskId)
    by_cases hid : t.id = taskId
    · have hteq : t = task := eq_of_find?_id hn hfind htl hid
      rw [hteq, crossG3_task hn hfind hst hsd]
      have hL : ((moveWrite now dst di task).status == dst) = true := by
        rw [moveWrite_status]
        simp
      have hR : (task.id == taskId) = true := by
        have := hteq ▸ hid
        simpa using this
      rw [hL, hR, Bool.or_true]
    · have hid' : (t.id == taskId) = false := beq_eq_false_iff_ne.mpr hid
      rw [crossG3_status hid, hid', Bool.or_false]
  rw [h1]
  apply taskSort_eq_of_perm
  · have hsplit : List.Perm
        (l.filter (fun t => t.status == dst || t.id == taskId))
        (task :: l.filter (fun t => t.status == dst)) := by
      apply filter_orId_perm hn hfind
      rw [hst]
      exact beq_eq_false_iff_ne.mpr hsd
    have hperm1 : List.Perm
        ((l.filter (fun t => t.status == dst || t.id == taskId)).map
          (crossG3 now l taskId src dst si di))
        ((task :: l.filter (fun t => t.status == dst)).map
          (crossG3 now l taskId src dst si di)) := hsplit.map _
    rw [List.map_cons, crossG3_task hn hfind hst hsd] at hperm1
    have hperm2 : List.Perm
        ((l.filter (fun t => t.status == dst)).map
          (crossG3 now l taskId src dst si di))
        ((col dst l).map (crossG3 now l taskId src dst si di)) :=
      ((col_perm_filter dst l).symm.map _)
    have hmapped : (col dst l).map (crossG3 now l taskId src dst si di) =
        (col dst l).take di ++
          (((col dst l).drop di).enumFrom di).map
            (fun p => shiftWrite now ((p.1 : Int) + 1) p.2) := by
      conv_lhs => rw [← List.take_append_drop di (col dst l)]
      rw [List.map_append]
      congr 1
      · apply map_eq_self
        intro t ht
        have hG2 : crossG2 now l taskId dst di t = t :=
          crossG2_dest_take hn hfind hst hsd ht
        have htcol : t ∈ col dst l := List.take_subset di (col dst l) ht
        rcases mem_col.mp htcol with ⟨htl, hts⟩
        have hid : t.id ≠ taskId := by
          intro he
          have hteq : t = task := eq_of_find?_id hn hfind htl he
          rw [hteq, hst] at hts
          exact hsd hts
        rw [crossG3_of_status_ne hn htl hid (by rw [hts]; exact Ne.symm hsd)]
        exact hG2
      · apply map_enumFrom_eq ((col dst l).drop di)
          (crossG3 now l taskId src dst si di)
          (fun i t => shiftWrite now ((i : Int) + 1) t) di
        intro k t hk
        have htcol : t ∈ col dst l :=
          List.drop_subset di (col dst l) (List.getElem?_mem hk)
        rcases mem_col.mp htcol with ⟨htl, hts⟩
        have hid : t.id ≠ taskId := by
          intro he
          have hteq : t = task := eq_of_find?_id hn hfind htl he
          rw [hteq, hst] at hts
          exact hsd hts
        rw [crossG3_of_status_ne hn htl hid (by rw [hts]; exact Ne.symm hsd)]
        exact crossG2_dest_drop hn hfind hst hsd hk
    have hmid : List.Perm
        (moveWrite now dst di task ::
          ((col dst l).take di ++
            (((col dst l).drop di).enumFrom di).map
              (fun p => shiftWrite now ((p.1 : Int) + 1) p.2)))
        ((col dst l).take di ++ moveWrite now dst di task ::
          (((col dst l).drop di).enumFrom di).map
            (fun p => shiftWrite now ((p.1 : Int) + 1) p.2)) :=
      List.perm_middle.symm
    refine hperm1.trans (((hperm2.cons _).trans ?_))
    rw [hmapped]
    exact hmid
  · rw [List.pairwise_append]
    refine ⟨(pairwise_keyLt_col hcanD).sublist
      (List.take_sublist di (col dst l)), ?_, ?_⟩
    · rw [List.pairwise_cons]
      constructor
      · intro b hb
        rcases List.mem_map.mp hb with ⟨p, hp, hpe⟩
        have hpfst : di ≤ p.1 := (List.mem_enumFrom hp).1
        show orderKey _ < orderKey b
        have hkeya : orderKey (moveWrite now dst di task) = (di : Int) := by
          simp [orderKey, moveWrite]
        have hkeyb : orderKey b = (p.1 : Int) + 1 := by
          rw [← hpe]
          simp [orderKey, shiftWrite]
        rw [hkeya, hkeyb]
        have : (di : Int) ≤ (p.1 : Int) := by exact_mod_cast hpfst
        omega
      · apply pairwise_keyLt_of_key_eq (fun k => ((di + k : Nat) : Int) + 1)
        · intro k hk
          have hlen : k < ((col dst l).drop di).length := by
            simpa using hk
          have he : ((((col dst l).drop di).enumFrom di).map
              (fun p => shiftWrite now ((p.1 : Int) + 1) p.2))[k] =
              shiftWrite now (((di + k : Nat) : Int) + 1)
                ((col dst l).drop di)[k] := by
            simp [List.getElem_map, List.getElem_enumFrom, hlen]
          rw [he]
          show orderKey _ = ((di + k : Nat) : Int) + 1
          simp [orderKey, shiftWrite]
        · intro i j hij
          have : di + i < di + j := by omega
          have h2 : ((di + i : Nat) : Int) < ((di + j : Nat) : Int) := by
            exact_mod_cast this
          omega
    · intro a ha b hb
      rcases mem_take_pos ha with ⟨k, hkn, hk⟩
      have hka : a.order = some (k : Int) := hcanD k a hk
      have hkeya : orderKey a = (k : Int) := by simp [orderKey, hka]
      show orderKey a < orderKey b
      rcases List.mem_cons.mp hb with hbm | hbs
      · rw [hbm, hkeya]
        have : orderKey (moveWrite now dst di task) = (di : Int) := by
          simp [orderKey, moveWrite]
        rw [this]
        exact_mod_cast hkn
      · rcases List.mem_map.mp hbs with ⟨p, hp, hpe⟩
        have hpfst : di ≤ p.1 := (List.mem_enumFrom hp).1
        have hkeyb : orderKey b = (p.1 : Int) + 1 := by
          rw [← hpe]
          simp [orderKey, shiftWrite]
        rw [hkeya, hkeyb]
        have h3 : k < p.1 + 1 := by omega
        have h4 : ((k : Nat) : Int) < ((p.1 + 1 : Nat) : Int) := by
          exact_mod_cast h3
        omega

/-! ### Splice arithmetic and sequence computations -/

theorem spliceInsert_length {α : Type} (l : List α) (i : Nat) (a : α) :
    (spliceInsert l i a).length = l.length + 1 := by
  unfold spliceInsert
  simp [List.length_take]
  omega

theorem spliceRemove_length {α : Type} {l : List α} {i : Nat} {a : α}
    (h : l[i]? = some a) : (spliceRemove l i).length = l.length - 1 := by
  have := lt_length_of_getElem? h
  unfold spliceRemove
  simp [List.length_take]
  omega

theorem spliceInsert_getElem_self {α : Type} {l : List α} {i : Nat} {a : α}
    (h : i ≤ l.length) : (spliceInsert l i a)[i]? = some a := by
  unfold spliceInsert
  have hlen : (l.take i).length = i := by
    simp [List.length_take]
    omega
  rw [List.getElem?_append_right (le_of_eq hlen)]
  simp [hlen]

theorem spliceInsert_map {α β : Type} (f : α → β) (l : List α) (i : Nat)
    (a : α) : (spliceInsert l i a).map f = spliceInsert (l.map f) i (f a) := by
  unfold spliceInsert
  simp [List.map_take, List.map_drop]

theorem spliceRemove_map {α β : Type} (f : α → β) (l : List α) (i : Nat) :
    (spliceRemove l i).map f = spliceRemove (l.map f) i := by
  unfold spliceRemove
  simp [List.map_take, List.map_drop]

theorem ids_shiftMap (now : Int) (X : List Task) (n : Nat) (g : Nat → Int) :
    ((X.enumFrom n).map (fun p => shiftWrite now (g p.1) p.2)).map Task.id =
      X.map Task.id := by
  rw [List.map_map]
  have h : (Task.id ∘ fun p : Nat × Task => shiftWrite now (g p.1) p.2) =
      (Task.id ∘ Prod.snd) := rfl
  rw [h, ← List.map_map, List.enumFrom_map_snd]

theorem orders_shiftMap (now : Int) (X : List Task) (n : Nat) (g : Nat → Int) :
    ((X.enumFrom n).map (fun p => shiftWrite now (g p.1) p.2)).map
        Task.order =
      (List.range X.length).map (fun k => some (g (n + k))) := by
  apply List.ext_getElem?
  intro m
  rw [List.getElem?_map, List.getElem?_map, List.getElem?_enumFrom,
    List.getElem?_map]
  cases hx : X[m]? with
  | none =>
    have hm : X.length ≤ m := by
      by_contra hc
      rw [List.getElem?_eq_getElem (Nat.lt_of_not_le hc)] at hx
      cases hx
    rw [List.getElem?_eq_none (by simpa using hm)]
    rfl
  | some t =>
    have hm : m < X.length := lt_length_of_getElem? hx
    rw [List.getElem?_eq_getElem (by simpa using hm)]
    simp [List.getElem_range, shiftWrite]

theorem ids_renumberMap (now : Int) (X : List Task) (n : Nat) :
    ((X.enumFrom n).map (fun p => renumberWrite now (p.1 : Int) p.2)).map
        Task.id = X.map Task.id := by
  rw [List.map_map]
  have h : (Task.id ∘ fun p : Nat × Task => renumberWrite now (p.1 : Int) p.2)
      = (Task.id ∘ Prod.snd) := by
    funext p
    show (renumberWrite now (p.1 : Int) p.2).id = p.2.id
    exact renumberWrite_id now (p.1 : Int) p.2
  rw [h, ← List.map_map, List.enumFrom_map_snd]

theorem orders_renumberMap (now : Int) (X : List Task) (n : Nat) :
    ((X.enumFrom n).map (fun p => renumberWrite now (p.1 : Int) p.2)).map
        Task.order =
      (List.range X.length).map (fun k => some ((n + k : Nat) : Int)) := by
  apply List.ext_getElem?
  intro m
  rw [List.getElem?_map, List.getElem?_map, List.getElem?_enumFrom,
    List.getElem?_map]
  cases hx : X[m]? with
  | none =>
    have hm : X.length ≤ m := by
      by_contra hc
      rw [List.getElem?_eq_getElem (Nat.lt_of_not_le hc)] at hx
      cases hx
    rw [List.getElem?_eq_none (by simpa using hm)]
    rfl
  | some t =>
    have hm : m < X.length := lt_length_of_getElem? hx
    rw [List.getElem?_eq_getElem (by simpa using hm)]
    simp [List.getElem_range, renumberWrite_order]

theorem canonical_of_orders {s : String} {u : List Task} {len : Nat}
    (h : (col s u).map Task.order =
      (List.range len).map (fun k => some ((k : Nat) : Int))) :
    canonicalCol s u := by
  intro i t hi
  have h1 : ((col s u).map Task.order)[i]? = some t.order := by
    rw [List.getElem?_map, hi]
    rfl
  rw [h, List.getElem?_map] at h1
  have hlt : i < len := by
    by_contra hc
    rw [List.getElem?_eq_none (by simpa using Nat.le_of_not_lt hc)] at h1
    cases h1
  rw [List.getElem?_range hlt] at h1
  simpa using h1.symm

/-! ### Sequence-level corollaries of the cross-column masters -/

theorem crossMove_colIds_dest {now : Int} {l : List Task}
    {taskId src dst : String} {si di : Nat} {task : Task}
    (hn : (l.map Task.id).Nodup)
    (hfind : l.find? (fun t => t.id == taskId) = some task)
    (hst : task.status = src) (hsd : src ≠ dst)
    (hcanD : canonicalCol dst l) :
    colIds dst (crossColumnMove now l taskId src dst si di) =
      spliceInsert (colIds dst l) di taskId := by
  have htask_id : task.id = taskId := by
    simpa [beq_iff_eq] using List.find?_some hfind
  unfold colIds
  rw [crossColumn_dest hn hfind hst hsd hcanD, List.map_append, List.map_cons,
    ids_shiftMap now ((col dst l).drop di) di (fun i => (i : Int) + 1),
    List.map_take, List.map_drop]
  show _ ++ task.id :: _ = _
  rw [htask_id]
  rfl

theorem crossMove_colIds_src {now : Int} {l : List Task}
    {taskId src dst : String} {si di : Nat} {task : Task}
    (hn : (l.map Task.id).Nodup)
    (hfind : l.find? (fun t => t.id == taskId) = some task)
    (hst : task.status = src) (hsd : src ≠ dst)
    (hcanS : canonicalCol src l) (hsi : (col src l)[si]? = some task) :
    colIds src (crossColumnMove now l taskId src dst si di) =
      spliceRemove (colIds src l) si := by
  unfold colIds
  rw [crossColumn_src hn hfind hst hsd hcanS hsi, List.map_append,
    ids_shiftMap now ((col src l).drop (si + 1)) si (fun i => (i : Int)),
    List.map_take, List.map_drop]
  rfl

theorem crossMove_col_other {now : Int} {l : List Task}
    {taskId src dst : String} {si di : Nat} {task : Task}
    (hn : (l.map Task.id).Nodup)
    (hfind : l.find? (fun t => t.id == taskId) = some task)
    (hst : task.status = src) (hsd : src ≠ dst)
    (s2 : String) (h2src : s2 ≠ src) (h2dst : s2 ≠ dst) :
    col s2 (crossColumnMove now l taskId src dst si di) = col s2 l := by
  unfold col
  rw [crossColumn_other hn hfind hst hsd s2 h2src h2dst]

theorem crossMove_orders_dest {now : Int} {l : List Task}
    {taskId src dst : String} {si di : Nat} {task : Task}
    (hn : (l.map Task.id).Nodup)
    (hfind : l.find? (fun t => t.id == taskId) = some task)
    (hst : task.status = src) (hsd : src ≠ dst)
    (hcanD : canonicalCol dst l) (hdi : di ≤ (col dst l).length) :
    (col dst (crossColumnMove now l taskId src dst si di)).map Task.order =
      (List.range ((col dst l).length + 1)).map
        (fun k => some ((k : Nat) : Int)) := by
  rw [crossColumn_dest hn hfind hst hsd hcanD, List.map_append, List.map_cons,
    orders_shiftMap now ((col dst l).drop di) di (fun i => (i : Int) + 1),
    moveWrite_order]
  apply List.ext_getElem?
  intro k
  set m := (col dst l).length with hmdef
  have hlen1 : (((col dst l).take di).map Task.order).length = di := by
    simp [List.length_take]
    omega
  have hlen2 : ((col dst l).drop di).length = m - di := by
    simp
  by_cases hk1 : k < di
  · rw [List.getElem?_append_left (by omega)]
    have hklt : k < m := by omega
    have ht : (col dst l)[k]? = some (col dst l)[k] :=
      List.getElem?_eq_getElem hklt
    rw [List.getElem?_map, List.getElem?_take_of_lt hk1, ht]
    have hord := hcanD k _ ht
    rw [List.getElem?_map, List.getElem?_range (by omega)]
    simp [hord]
  · rw [List.getElem?_append_right (by omega), hlen1, List.getElem?_cons]
    by_cases hk2 : k = di
    · subst hk2
      simp only [Nat.sub_self, if_pos]
      rw [List.getElem?_map, List.getElem?_range (by omega)]
      simp
    · have hne : (k - di : Nat) ≠ 0 := by omega
      simp only [hne, if_false]
      by_cases hk3 : k ≤ m
      · rw [List.getElem?_map, List.getElem?_range (by rw [hlen2]; omega)]
        rw [List.getElem?_map, List.getElem?_range (by omega)]
        simp only [Option.map_some', Option.some.injEq]
        omega
      · rw [List.getElem?_eq_none
            (by rw [List.length_map, List.length_range, hlen2]; omega),
          List.getElem?_eq_none
            (by rw [List.length_map, List.length_range]; omega)]

theorem crossMove_orders_src {now : Int} {l : List Task}
    {taskId src dst : String} {si di : Nat} {task : Task}
    (hn : (l.map Task.id).Nodup)
    (hfind : l.find? (fun t => t.id == taskId) = some task)
    (hst : task.status = src) (hsd : src ≠ dst)
    (hcanS : canonicalCol src l) (hsi : (col src l)[si]? = some task) :
    (col src (crossColumnMove now l taskId src dst si di)).map Task.order =
      (List.range ((col src l).length - 1)).map
        (fun k => some ((k : Nat) : Int)) := by
  have hsilt : si < (col src l).length := lt_length_of_getElem? hsi
  rw [crossColumn_src hn hfind hst hsd hcanS hsi, List.map_append,
    orders_shiftMap now ((col src l).drop (si + 1)) si (fun i => (i : Int))]
  apply List.ext_getElem?
  intro k
  set n := (col src l).length with hndef
  have hlen1 : (((col src l).take si).map Task.order).length = si := by
    simp [List.length_take]
    omega
  have hlen2 : ((col src l).drop (si + 1)).length = n - si - 1 := by
    simp
    omega
  by_cases hk1 : k < si
  · rw [List.getElem?_append_left (by omega)]
    have hklt : k < n := by omega
    have ht : (col src l)[k]? = some (col src l)[k] :=
      List.getElem?_eq_getElem hklt
    rw [List.getElem?_map, List.getElem?_take_of_lt hk1, ht]
    have hord := hcanS k _ ht
    rw [List.getElem?_map, List.getElem?_range (by omega)]
    simp [hord]
  · rw [List.getElem?_append_right (by omega), hlen1]
    by_cases hk2 : k < n - 1
    · rw [List.getElem?_map, List.getElem?_range (by rw [hlen2]; omega)]
      rw [List.getElem?_map, List.getElem?_range (by omega)]
      simp only [Option.map_some', Option.some.injEq]
      omega
    · rw [List.getElem?_eq_none
          (by rw [List.length_map, List.length_range, hlen2]; omega),
        List.getElem?_eq_none
          (by rw [List.length_map, List.length_range]; omega)]

theorem crossMove_dest_getElem {now : Int} {l : List Task}
    {taskId src dst : String} {si di : Nat} {task : Task}
    (hn : (l.map Task.id).Nodup)
    (hfind : l.find? (fun t => t.id == taskId) = some task)
    (hst : task.status = src) (hsd : src ≠ dst)
    (hcanD : canonicalCol dst l) (hdi : di ≤ (col dst l).length) :
    (col dst (crossColumnMove now l taskId src dst si di))[di]? =
      some (moveWrite now dst di task) := by
  rw [crossColumn_dest hn hfind hst hsd hcanD]
  have hlen : ((col dst l).take di).length = di := by
    simp [List.length_take]
    omega
  rw [List.getElem?_append_right (le_of_eq hlen)]
  simp [hlen]

/-! ### The same-column master theorem -/

theorem sameColumn_master (now : Int) (di : Nat) {l : List Task}
    {s : String} {si : Nat} {mv : Task}
    (hn : (l.map Task.id).Nodup) (hC : (col s l)[si]? = some mv) :
    ∃ u, sameColumnReorder now l s si di = some u ∧
      u = l.map (applyOne ((spliceInsert (spliceRemove (col s l) si) di
        mv).enum.map (fun p => (p.2.id, renumberWrite now (p.1 : Int))))) ∧
      col s u = (spliceInsert (spliceRemove (col s l) si) di mv).enum.map
        (fun p => renumberWrite now (p.1 : Int) p.2) ∧
      ∀ s2 : String, s2 ≠ s →
        u.filter (fun t => t.status == s2) =
          l.filter (fun t => t.status == s2) := by
  set reordered := spliceInsert (spliceRemove (col s l) si) di mv with hreord
  set upds : List TaskUpd :=
    reordered.enum.map (fun p => (p.2.id, renumberWrite now (p.1 : Int)))
    with hupds
  set G := applyOne upds with hG
  -- the branch taken
  have hC' : (taskSort (l.filter (fun t => t.status == s)))[si]? =
      some mv := hC
  have hstep : sameColumnReorder now l s si di = some (applyUpds upds l) := by
    simp only [sameColumnReorder, hC']
    rfl
  -- the update batch is id- and status-preserving with nodup keys
  have hIdPres : IdPres upds := by
    intro u hu t
    rw [hupds] at hu
    rcases List.mem_map.mp hu with ⟨p, _, he⟩
    rw [← he]
    exact renumberWrite_id now (p.1 : Int) t
  have hStPres : StatusPres upds := by
    intro u hu t
    rw [hupds] at hu
    rcases List.mem_map.mp hu with ⟨p, _, he⟩
    rw [← he]
    exact renumberWrite_status now (p.1 : Int) t
  have hpermCr : List.Perm (col s l) reordered := by
    rw [hreord]
    exact (perm_spliceRemove hC).trans (perm_spliceInsert _ di mv).symm
  have hkeys : upds.map Prod.fst = reordered.map Task.id := by
    rw [hupds]
    show ((reordered.enumFrom 0).map
      (fun p => (p.2.id, renumberWrite now (p.1 : Int)))).map Prod.fst = _
    exact keys_of_posUpds
  have hkeysNodup : (upds.map Prod.fst).Nodup := by
    rw [hkeys]
    exact ((hpermCr.map Task.id).nodup_iff).mp (nodup_ids_col hn)
  have hu : applyUpds upds l = l.map G := applyUpds_eq_map hn hIdPres
  have hGid : ∀ t : Task, (G t).id = t.id := applyOne_id hIdPres
  have hGst : ∀ t : Task, (G t).status = t.status := applyOne_status hStPres
  -- key membership characterization
  have hkeyMem : ∀ k : String, k ∈ upds.map Prod.fst →
      ∃ w ∈ col s l, w.id = k := by
    intro k hk
    rw [hkeys] at hk
    rcases List.mem_map.mp hk with ⟨w, hw, he⟩
    exact ⟨w, hpermCr.mem_iff.mpr hw, he⟩
  refine ⟨applyUpds upds l, hstep, by rw [hu], ?_, ?_⟩
  · -- the renumbered column
    rw [hu]
    show taskSort ((l.map G).filter (fun t => t.status == s)) = _
    have hfil : (l.map G).filter (fun t => t.status == s) =
        (l.filter (fun t => t.status == s)).map G := by
      rw [List.filter_map]
      congr 1
      apply List.filter_congr
      intro t _
      show ((G t).status == s) = (t.status == s)
      rw [hGst t]
    rw [hfil]
    apply taskSort_eq_of_perm
    · -- permutation to the expected list
      have h1 : List.Perm ((l.filter (fun t => t.status == s)).map G)
          ((col s l).map G) := ((col_perm_filter s l).map G).symm
      have h2 : List.Perm ((col s l).map G) (reordered.map G) :=
        hpermCr.map G
      have h3 : reordered.map G = reordered.enum.map
          (fun p => renumberWrite now (p.1 : Int) p.2) := by
        show reordered.map G = (reordered.enumFrom 0).map
          (fun p => renumberWrite now (p.1 : Int) p.2)
        apply map_enumFrom_eq reordered G
          (fun i t => renumberWrite now (i : Int) t) 0
        intro k t hk
        have hmem : (0 + k, t) ∈ reordered.enumFrom 0 :=
          mem_enumFrom_of_getElem? hk
        have hpair : (t.id, renumberWrite now ((0 + k : Nat) : Int)) ∈ upds := by
          rw [hupds]
          exact List.mem_map_of_mem
            (fun p : Nat × Task => (p.2.id, renumberWrite now (p.1 : Int)))
            hmem
        have := applyOne_mem hkeysNodup hIdPres hpair rfl
        rw [hG, this]
      exact h3 ▸ (h1.trans h2)
    · -- strictly sorted by the written keys
      apply pairwise_keyLt_of_key_eq (fun k => (k : Int))
      · intro k hk
        have hlen : k < reordered.length := by
          simpa using hk
        have : (reordered.enum.map
            (fun p => renumberWrite now (p.1 : Int) p.2))[k] =
            renumberWrite now ((0 + k : Nat) : Int) reordered[k] := by
          show ((reordered.enumFrom 0).map
            (fun p => renumberWrite now (p.1 : Int) p.2))[k] = _
          simp [List.getElem_map, List.getElem_enumFrom, hlen]
        rw [this]
        show orderKey _ = (k : Int)
        simp [orderKey, renumberWrite_order]
      · intro i j hij
        exact_mod_cast hij
  · -- untouched columns
    intro s2 hs2
    rw [hu, List.filter_map]
    have hfil : l.filter ((fun t => t.status == s2) ∘ G) =
        l.filter (fun t => t.status == s2) := by
      apply List.filter_congr
      intro t _
      show ((G t).status == s2) = (t.status == s2)
      rw [hGst t]
    rw [hfil]
    apply map_eq_self
    intro t ht
    rcases List.mem_filter.mp ht with ⟨htl, hts⟩
    rw [hG]
    apply applyOne_not_mem
    intro u hu2 he
    rcases hkeyMem u.1 (List.mem_map_of_mem Prod.fst hu2) with ⟨w, hw, hwid⟩
    rcases mem_col.mp hw with ⟨hwl, hws⟩
    have : w = t := id_inj hn hwl htl (by rw [hwid, he])
    rw [← this] at hts
    rw [hws] at hts
    exact hs2 (beq_iff_eq.mp hts).symm

/-! ### Sequence-level corollaries of the same-column master -/

theorem enum_eq_enumFrom {α : Type} (l : List α) : l.enum = l.enumFrom 0 :=
  rfl

theorem sameMove_facts (now : Int) (di : Nat) {l : List Task}
    {s : String} {si : Nat} {mv : Task}
    (hn : (l.map Task.id).Nodup) (hC : (col s l)[si]? = some mv) :
    ∃ u, sameColumnReorder now l s si di = some u ∧
      colIds s u = spliceInsert (spliceRemove (colIds s l) si) di mv.id ∧
      (col s u).map Task.order =
        (List.range (col s l).length).map (fun k => some ((k : Nat) : Int)) ∧
      (∀ s2, s2 ≠ s → col s2 u = col s2 l) := by
  obtain ⟨u, hstep, hmap, hcol, hother⟩ := sameColumn_master now di hn hC
  have hlen : (spliceInsert (spliceRemove (col s l) si) di mv).length =
      (col s l).length := by
    rw [spliceInsert_length, spliceRemove_length hC]
    have := lt_length_of_getElem? hC
    omega
  refine ⟨u, hstep, ?_, ?_, ?_⟩
  · unfold colIds
    rw [hcol, enum_eq_enumFrom, ids_renumberMap, spliceInsert_map,
      spliceRemove_map]
  · rw [hcol, enum_eq_enumFrom, orders_renumberMap, hlen]
    exact List.map_congr_left fun k _ => by rw [Nat.zero_add]
  · intro s2 h2
    unfold col
    rw [hother s2 h2]

/-! ### The emitted update batch -/

theorem flatten_map_ite {l : List Task} {p : Task → Bool}
    {f : Task → Update} :
    (l.map (fun t => if p t then [f t] else [])).flatten =
      (l.filter p).map f := by
  induction l with
  | nil => rfl
  | cons a as ih =>
    simp only [List.map_cons, List.flatten_cons, List.filter_cons]
    by_cases h : p a = true
    · simp [h, ih]
    · simp [h, ih]

/-- After a move that only renumbers (statuses preserved), the persistence
loop emits exactly one order write per task whose `order` changed, and
nothing else. -/
theorem emitted_moved_eq {l : List Task} {G : Task → Task}
    (hn : (l.map Task.id).Nodup)
    (hgid : ∀ t : Task, (G t).id = t.id)
    (hgst : ∀ t ∈ l, (G t).status = t.status) :
    emittedUpdates l (.moved (l.map G)) =
      (l.filter (fun t => t.order != (G t).order)).map
        (fun t => Update.setOrder t.id (G t).order) := by
  show ((l.map G).map (taskUpdates l)).flatten = _
  rw [List.map_map]
  have hpt : ∀ t ∈ l, (taskUpdates l ∘ G) t =
      if t.order != (G t).order then [Update.setOrder t.id (G t).order]
      else [] := by
    intro t ht
    show taskUpdates l (G t) = _
    unfold taskUpdates
    rw [hgid t, find?_self_of_nodup hn ht]
    have hstat : (t.status != (G t).status) = false := by
      rw [hgst t ht]
      simp
    simp only [hstat, Bool.false_eq_true, if_false, hgid t]
  rw [List.map_congr_left hpt]
  exact flatten_map_ite

/-! ### Dispatch of `handleDragEnd` into its branches -/

theorem handleDragEnd_noDest {now : Int} {l : List Task} {r : DropResult}
    (h : r.destination = none) :
    handleDragEnd now l r = .ignored .noDestination := by
  unfold handleDragEnd
  rw [h]

theorem handleDragEnd_samePos {now : Int} {l : List Task} {r : DropResult}
    {d : DropPos} (hdest : r.destination = some d)
    (h1 : d.droppableId = r.source.droppableId)
    (h2 : d.index = r.source.index) :
    handleDragEnd now l r = .ignored .samePosition := by
  have hg : (d.droppableId == r.source.droppableId &&
      d.index == r.source.index) = true := by
    simp [h1, h2]
  simp only [handleDragEnd, hdest, hg, if_true]

theorem handleDragEnd_notFound {now : Int} {l : List Task} {r : DropResult}
    {d : DropPos} (hdest : r.destination = some d)
    (hguard : (d.droppableId == r.source.droppableId &&
      d.index == r.source.index) = false)
    (hfn : l.find? (fun t => t.id == r.draggableId) = none) :
    handleDragEnd now l r = .ignored .taskNotFound := by
  simp only [handleDragEnd, hdest, hguard, Bool.false_eq_true, if_false, hfn]

theorem handleDragEnd_eq_cross {now : Int} {l : List Task} {r : DropResult}
    {d : DropPos} {task : Task} (hdest : r.destination = some d)
    (hfind : l.find? (fun t => t.id == r.draggableId) = some task)
    (hvs : isValidStatus r.source.droppableId = true)
    (hvd : isValidStatus d.droppableId = true)
    (hne : d.droppableId ≠ r.source.droppableId) :
    handleDragEnd now l r = .moved (crossColumnMove now l r.draggableId
      r.source.droppableId d.droppableId r.source.index d.index) := by
  have hg : (d.droppableId == r.source.droppableId &&
      d.index == r.source.index) = false := by
    rw [beq_eq_false_iff_ne.mpr hne]
    rfl
  have hv : (!isValidStatus r.source.droppableId ||
      !isValidStatus d.droppableId) = false := by
    rw [hvs, hvd]
    rfl
  have hb : (r.source.droppableId != d.droppableId) = true :=
    bne_iff_ne.mpr (Ne.symm hne)
  simp only [handleDragEnd, hdest, hg, Bool.false_eq_true, if_false, hfind,
    hv, hb, if_true]

theorem handleDragEnd_eq_same {now : Int} {l : List Task} {r : DropResult}
    {d : DropPos} {task : Task} (hdest : r.destination = some d)
    (hfind : l.find? (fun t => t.id == r.draggableId) = some task)
    (hvs : isValidStatus r.source.droppableId = true)
    (heq : d.droppableId = r.source.droppableId)
    (hni : d.index ≠ r.source.index) :
    handleDragEnd now l r =
      match sameColumnReorder now l r.source.droppableId r.source.index
          d.index with
      | none => .crashed
      | some u => .moved u := by
  have hg : (d.droppableId == r.source.droppableId &&
      d.index == r.source.index) = false := by
    have : (d.index == r.source.index) = false := beq_eq_false_iff_ne.mpr hni
    rw [this]
    simp
  have hv : (!isValidStatus r.source.droppableId ||
      !isValidStatus d.droppableId) = false := by
    rw [heq, hvs]
    rfl
  have hb : (r.source.droppableId != d.droppableId) = false := by
    rw [heq]
    simp
  simp only [handleDragEnd, hdest, hg, Bool.false_eq_true, if_false, hfind,
    hv, hb]

/-! ### Last helpers for the claims -/

theorem handleDragEnd_invalidDest {now : Int} {l : List Task}
    {r : DropResult} {d : DropPos} {task : Task}
    (hdest : r.destination = some d)
    (hguard : (d.droppableId == r.source.droppableId &&
      d.index == r.source.index) = false)
    (hfind : l.find? (fun t => t.id == r.draggableId) = some task)
    (hinv : isValidStatus d.droppableId = false) :
    handleDragEnd now l r = .ignored .invalidStatus := by
  have hv : (!isValidStatus r.source.droppableId ||
      !isValidStatus d.droppableId) = true := by
    rw [hinv]
    simp
  simp only [handleDragEnd, hdest, hguard, Bool.false_eq_true, if_false,
    hfind, hv, if_true]

theorem spliceInsert_getElem_min {α : Type} (l : List α) (i : Nat) (a : α) :
    (spliceInsert l i a)[min i l.length]? = some a := by
  by_cases h : i ≤ l.length
  · rw [Nat.min_eq_left h]
    exact spliceInsert_getElem_self h
  · have hmin : min i l.length = l.length := by omega
    rw [hmin]
    unfold spliceInsert
    rw [List.take_of_length_le (by omega), List.drop_eq_nil_of_le (by omega)]
    rw [List.getElem?_append_right (le_refl _)]
    simp

theorem colIds_getElem {s : String} {l : List Task} {i : Nat} {t : Task}
    (h : (col s l)[i]? = some t) : (colIds s l)[i]? = some t.id := by
  unfold colIds
  rw [List.getElem?_map, h]
  rfl

theorem colIds_length (s : String) (l : List Task) :
    (colIds s l).length = (col s l).length := List.length_map _ _

theorem option_bne_some (a b : Option Int) :
    ((some a : Option (Option Int)) != some b) = (a != b) := by
  simp [bne]

theorem filter_spliceRemove {α : Type} (p : α → Bool) {l : List α} {i : Nat}
    {a : α} (h : l[i]? = some a) (hp : p a = false) :
    (spliceRemove l i).filter p = l.filter p := by
  conv_rhs => rw [eq_take_cons_drop h]
  unfold spliceRemove
  rw [List.filter_append, List.filter_append, List.filter_cons, hp]
  simp

theorem filter_spliceInsert {α : Type} (p : α → Bool) (l : List α) (i : Nat)
    (a : α) (hp : p a = false) :
    (spliceInsert l i a).filter p = l.filter p := by
  unfold spliceInsert
  conv_rhs => rw [← List.take_append_drop i l]
  rw [List.filter_append, List.filter_append, List.filter_cons, hp]
  simp

theorem spliceInsert_spliceRemove_self {α : Type} {l : List α} {i : Nat}
    {a : α} (h : l[i]? = some a) : spliceInsert (spliceRemove l i) i a = l := by
  show (spliceRemove l i).take i ++ a :: (spliceRemove l i).drop i = l
  rw [spliceRemove_take h, spliceRemove_drop h]
  exact (eq_take_cons_drop h).symm

/-! ### The claims -/

/-- C4: a move whose destination (column, index) equals the task's current
(column, index) — the source of a library-consistent drag — is caught by the
no-op guard: the handler returns `samePosition`, emits no updates, and
leaves the task list untouched. -/
theorem c4_noop_guard {now : Int} {l : List Task} {r : DropResult}
    {d : DropPos} {task : Task} (hdest : r.destination = some d)
    (hn : (l.map Task.id).Nodup)
    (hfind : l.find? (fun t => t.id == r.draggableId) = some task)
    (hsrc : r.source.droppableId = task.status)
    (hsi : (col task.status l)[r.source.index]? = some task)
    (hd1 : d.droppableId = task.status) (hd2 : d.index = r.source.index) :
    handleDragEnd now l r = .ignored .samePosition ∧
    emittedUpdates l (handleDragEnd now l r) = [] ∧
    resultTasks l (handleDragEnd now l r) = l := by
  have h : handleDragEnd now l r = .ignored .samePosition :=
    handleDragEnd_samePos hdest (hd1.trans hsrc.symm) hd2
  exact ⟨h, by rw [h]; rfl, by rw [h]; rfl⟩

/-- C4 witness: dropping task `a` of the three-task board back onto its own
position emits nothing. -/
theorem c4_noop_guard_witness :
    handleDragEnd 9 exThree ⟨some ⟨"todo", 0⟩, ⟨"todo", 0⟩, "a"⟩ =
      .ignored .samePosition ∧
    emittedUpdates exThree
      (handleDragEnd 9 exThree ⟨some ⟨"todo", 0⟩, ⟨"todo", 0⟩, "a"⟩) = [] ∧
    resultTasks exThree
      (handleDragEnd 9 exThree ⟨some ⟨"todo", 0⟩, ⟨"todo", 0⟩, "a"⟩) =
      exThree :=
  c4_noop_guard rfl (by decide)
    (show exThree.find? (fun t => t.id == "a") =
      some (mkTask "a" "todo" (some 0) 1) by decide)
    rfl
    (show (col "todo" exThree)[0]? = some (mkTask "a" "todo" (some 0) 1)
      by decide)
    rfl rfl

/-- C5: when the dragged id is not in the task list, the handler performs no
updates and leaves the state untouched; whenever the drop is not already
caught by the earlier no-destination or same-position guards, it reports
precisely the not-found condition. -/
theorem c5_not_found {now : Int} {l : List Task} {r : DropResult}
    (hmiss : ∀ t ∈ l, t.id ≠ r.draggableId) :
    emittedUpdates l (handleDragEnd now l r) = [] ∧
    resultTasks l (handleDragEnd now l r) = l ∧
    ∀ d : DropPos, r.destination = some d →
      (d.droppableId == r.source.droppableId &&
        d.index == r.source.index) = false →
      handleDragEnd now l r = .ignored .taskNotFound := by
  have hfn : l.find? (fun t => t.id == r.draggableId) = none := by
    rw [List.find?_eq_none]
    intro t ht
    simpa using hmiss t ht
  cases hdest : r.destination with
  | none =>
    have h : handleDragEnd now l r = .ignored .noDestination :=
      handleDragEnd_noDest hdest
    refine ⟨by rw [h]; rfl, by rw [h]; rfl, fun d hd _ => ?_⟩
    cases hd
  | some d =>
    cases hg : (d.droppableId == r.source.droppableId &&
        d.index == r.source.index) with
    | true =>
      have h12 : d.droppableId = r.source.droppableId ∧
          d.index = r.source.index := by
        simpa [Bool.and_eq_true, beq_iff_eq] using hg
      have h : handleDragEnd now l r = .ignored .samePosition :=
        handleDragEnd_samePos hdest h12.1 h12.2
      refine ⟨by rw [h]; rfl, by rw [h]; rfl, fun d2 hd2 hg2 => ?_⟩
      injection hd2 with he
      subst he
      rw [hg] at hg2
      cases hg2
    | false =>
      have h : handleDragEnd now l r = .ignored .taskNotFound :=
        handleDragEnd_notFound hdest hg hfn
      exact ⟨by rw [h]; rfl, by rw [h]; rfl, fun d2 hd2 hg2 => h⟩

/-- C5 witness: a `DropResult` whose `draggableId` is unknown is ignored as
not found and emits nothing. -/
theorem c5_not_found_witness :
    emittedUpdates exThree
      (handleDragEnd 9 exThree ⟨some ⟨"done", 0⟩, ⟨"todo", 0⟩, "zz"⟩) = [] ∧
    resultTasks exThree
      (handleDragEnd 9 exThree ⟨some ⟨"done", 0⟩, ⟨"todo", 0⟩, "zz"⟩) =
      exThree ∧
    ∀ d : DropPos, some (⟨"done", 0⟩ : DropPos) = some d →
      (d.droppableId == "todo" && d.index == (0 : Nat)) = false →
      handleDragEnd 9 exThree ⟨some ⟨"done", 0⟩, ⟨"todo", 0⟩, "zz"⟩ =
        .ignored .taskNotFound :=
  c5_not_found (by decide)

/-- C6: when the destination's `droppableId` is not one of the five
lifecycle states, the handler aborts on one of its guard paths, emitting no
updates and leaving the state untouched. -/
theorem c6_invalid_destination {now : Int} {l : List Task} {r : DropResult}
    {d : DropPos} (hdest : r.destination = some d)
    (hinv : isValidStatus d.droppableId = false) :
    (∃ why, handleDragEnd now l r = .ignored why) ∧
    emittedUpdates l (handleDragEnd now l r) = [] ∧
    resultTasks l (handleDragEnd now l r) = l := by
  cases hg : (d.droppableId == r.source.droppableId &&
      d.index == r.source.index) with
  | true =>
    have h12 : d.droppableId = r.source.droppableId ∧
        d.index = r.source.index := by
      simpa [Bool.and_eq_true, beq_iff_eq] using hg
    have h : handleDragEnd now l r = .ignored .samePosition :=
      handleDragEnd_samePos hdest h12.1 h12.2
    exact ⟨⟨_, h⟩, by rw [h]; rfl, by rw [h]; rfl⟩
  | false =>
    cases hfn : l.find? (fun t => t.id == r.draggableId) with
    | none =>
      have h : handleDragEnd now l r = .ignored .taskNotFound :=
        handleDragEnd_notFound hdest hg hfn
      exact ⟨⟨_, h⟩, by rw [h]; rfl, by rw [h]; rfl⟩
    | some task =>
      have h : handleDragEnd now l r = .ignored .invalidStatus :=
        handleDragEnd_invalidDest hdest hg hfn hinv
      exact ⟨⟨_, h⟩, by rw [h]; rfl, by rw [h]; rfl⟩

/-- C6 witness: dropping onto a column id outside the known set aborts with
no updates. -/
theorem c6_invalid_destination_witness :
    (∃ why, handleDragEnd 9 exThree
      ⟨some ⟨"archived", 0⟩, ⟨"todo", 0⟩, "a"⟩ = .ignored why) ∧
    emittedUpdates exThree
      (handleDragEnd 9 exThree ⟨some ⟨"archived", 0⟩, ⟨"todo", 0⟩, "a"⟩) =
      [] ∧
    resultTasks exThree
      (handleDragEnd 9 exThree ⟨some ⟨"archived", 0⟩, ⟨"todo", 0⟩, "a"⟩) =
      exThree :=
  c6_invalid_destination rfl (by decide)

/-- C8: the column projection does not exclude a task whose status is
outside the known set — it fails outright: `grouped[task.status]` is
`undefined` and `.push` throws, so the whole projection produces nothing. -/
theorem c8_unknown_status_crash {l : List Task} {t : Task} (ht : t ∈ l)
    (hbad : isValidStatus t.status = false) : tasksByStatus l = none := by
  unfold tasksByStatus
  have hall : l.all (fun t => isValidStatus t.status) = false := by
    cases hall2 : l.all (fun t => isValidStatus t.status) with
    | false => rfl
    | true => exact absurd (List.all_eq_true.mp hall2 t ht) (by simp [hbad])
  rw [hall]
  simp

/-- C8 witness: a board holding a task with status `"archived"` makes the
projection fail instead of displaying the remaining columns. -/
theorem c8_unknown_status_crash_witness : tasksByStatus exBadStatus = none :=
  c8_unknown_status_crash
    (show mkTask "w" "archived" (some 0) 1 ∈ exBadStatus by decide)
    (by decide)

/-- C2: a same-column move of an existing task removes it from its sorted
position, reinserts it at `destinationIndex`, renumbers the whole column
contiguously from 0, and the persistence loop emits exactly one order write
per task whose order changed — and nothing else. -/
theorem c2_same_column_reorder {now : Int} {l : List Task} {r : DropResult}
    {d : DropPos} {task : Task}
    (hdest : r.destination = some d)
    (hn : (l.map Task.id).Nodup)
    (hfind : l.find? (fun t => t.id == r.draggableId) = some task)
    (hsrc : r.source.droppableId = task.status)
    (hsi : (col task.status l)[r.source.index]? = some task)
    (hvs : isValidStatus task.status = true)
    (hd1 : d.droppableId = task.status)
    (hdi : d.index < (col task.status l).length)
    (hni : d.index ≠ r.source.index) :
    ∃ u, handleDragEnd now l r = .moved u ∧
      colIds task.status u =
        spliceInsert (spliceRemove (colIds task.status l) r.source.index)
          d.index task.id ∧
      (colIds task.status u)[d.index]? = some task.id ∧
      (col task.status u).map Task.order =
        (List.range (col task.status l).length).map
          (fun k => some ((k : Nat) : Int)) ∧
      (∀ s2, s2 ≠ task.status → col s2 u = col s2 l) ∧
      emittedUpdates l (handleDragEnd now l r) =
        (u.filter (fun t2 =>
          ((l.find? (fun o => o.id == t2.id)).map Task.order)
            != some t2.order)).map
          (fun t2 => Update.setOrder t2.id t2.order) := by
  have hsi2 : (col r.source.droppableId l)[r.source.index]? = some task := by
    rw [hsrc]
    exact hsi
  have hdisp : handleDragEnd now l r =
      match sameColumnReorder now l r.source.droppableId r.source.index
          d.index with
      | none => .crashed
      | some u => .moved u :=
    handleDragEnd_eq_same hdest hfind (by rw [hsrc]; exact hvs)
      (hd1.trans hsrc.symm) hni
  obtain ⟨u, hstep, hmap, hcol, hotherF⟩ :=
    sameColumn_master now d.index hn hsi2
  obtain ⟨u2, hstep2, hids, hords, hother⟩ :=
    sameMove_facts now d.index hn hsi2
  rw [hstep] at hstep2
  injection hstep2 with he2
  subst he2
  have hmoved : handleDragEnd now l r = .moved u := by
    rw [hdisp, hstep]
  have hnlt : r.source.index < (col r.source.droppableId l).length :=
    lt_length_of_getElem? hsi2
  have hdi2 : d.index < (col r.source.droppableId l).length := by
    rw [hsrc]
    exact hdi
  refine ⟨u, hmoved, ?_, ?_, ?_, ?_, ?_⟩
  · rw [← hsrc]
    exact hids
  · rw [← hsrc, hids]
    apply spliceInsert_getElem_self
    rw [spliceRemove_length (colIds_getElem hsi2), colIds_length]
    omega
  · rw [← hsrc]
    exact hords
  · intro s2 h2
    rw [← hsrc] at h2
    exact hother s2 h2
  · set G := applyOne
      ((spliceInsert (spliceRemove (col r.source.droppableId l)
          r.source.index) d.index task).enum.map
        (fun p => (p.2.id, renumberWrite now (p.1 : Int)))) with hG
    have hIdPres : IdPres
        ((spliceInsert (spliceRemove (col r.source.droppableId l)
            r.source.index) d.index task).enum.map
          (fun p => (p.2.id, renumberWrite now (p.1 : Int)))) := by
      intro v hv t
      rcases List.mem_map.mp hv with ⟨p, _, he⟩
      rw [← he]
      exact renumberWrite_id now (p.1 : Int) t
    have hStPres : StatusPres
        ((spliceInsert (spliceRemove (col r.source.droppableId l)
            r.source.index) d.index task).enum.map
          (fun p => (p.2.id, renumberWrite now (p.1 : Int)))) := by
      intro v hv t
      rcases List.mem_map.mp hv with ⟨p, _, he⟩
      rw [← he]
      exact renumberWrite_status now (p.1 : Int) t
    have hGid : ∀ t : Task, (G t).id = t.id := applyOne_id hIdPres
    have hemit := emitted_moved_eq hn hGid
      (fun t _ => applyOne_status hStPres t)
    have hq : ∀ t ∈ l,
        (((l.find? (fun o => o.id == (G t).id)).map Task.order)
          != some (G t).order) = (t.order != (G t).order) := by
      intro t ht
      rw [hGid t, find?_self_of_nodup hn ht, Option.map_some']
      exact option_bne_some _ _
    have hgoal : ((l.map G).filter (fun t2 =>
        ((l.find? (fun o => o.id == t2.id)).map Task.order)
          != some t2.order)).map
        (fun t2 => Update.setOrder t2.id t2.order) =
        (l.filter (fun t => t.order != (G t).order)).map
          (fun t => Update.setOrder t.id (G t).order) := by
      rw [List.filter_map, List.map_map]
      have h1 : l.filter ((fun t2 =>
          ((l.find? (fun o => o.id == t2.id)).map Task.order)
            != some t2.order) ∘ G) =
          l.filter (fun t => t.order != (G t).order) := by
        apply List.filter_congr
        intro t ht
        show (((l.find? (fun o => o.id == (G t).id)).map Task.order)
          != some (G t).order) = _
        exact hq t ht
      rw [h1]
      apply List.map_congr_left
      intro t _
      show Update.setOrder (G t).id (G t).order = _
      rw [hGid t]
    rw [hmoved, hmap, hgoal, hemit]

/-- C2 witness: the spec's example — moving `a` of `[a(todo,0), b(todo,1),
c(todo,2)]` to index 2 yields the column `[b, c, a]` with orders `0, 1, 2`
and exactly the order writes `a→2, b→0, c→1`. -/
theorem c2_same_column_reorder_witness :
    (∃ u, handleDragEnd 9 exThree ⟨some ⟨"todo", 2⟩, ⟨"todo", 0⟩, "a"⟩ =
        .moved u ∧
      colIds "todo" u = spliceInsert (spliceRemove (colIds "todo" exThree) 0)
        2 "a" ∧
      (colIds "todo" u)[2]? = some "a" ∧
      (col "todo" u).map Task.order =
        (List.range (col "todo" exThree).length).map
          (fun k => some ((k : Nat) : Int)) ∧
      (∀ s2, s2 ≠ "todo" → col s2 u = col s2 exThree) ∧
      emittedUpdates exThree
          (handleDragEnd 9 exThree ⟨some ⟨"todo", 2⟩, ⟨"todo", 0⟩, "a"⟩) =
        (u.filter (fun t2 =>
          ((exThree.find? (fun o => o.id == t2.id)).map Task.order)
            != some t2.order)).map
          (fun t2 => Update.setOrder t2.id t2.order)) ∧
    colIds "todo" (resultTasks exThree
      (handleDragEnd 9 exThree ⟨some ⟨"todo", 2⟩, ⟨"todo", 0⟩, "a"⟩)) =
      ["b", "c", "a"] ∧
    emittedUpdates exThree
      (handleDragEnd 9 exThree ⟨some ⟨"todo", 2⟩, ⟨"todo", 0⟩, "a"⟩) =
      [Update.setOrder "a" (some 2), Update.setOrder "b" (some 0),
        Update.setOrder "c" (some 1)] :=
  ⟨c2_same_column_reorder
    (show (DropResult.mk (some ⟨"todo", 2⟩) ⟨"todo", 0⟩ "a").destination =
      some ⟨"todo", 2⟩ from rfl)
    (show (exThree.map Task.id).Nodup by decide)
    (show exThree.find? (fun t => t.id == "a") =
      some (mkTask "a" "todo" (some 0) 1) by decide)
    rfl
    (show (col "todo" exThree)[0]? = some (mkTask "a" "todo" (some 0) 1)
      by decide)
    (by decide) rfl (by decide) (by decide),
   by decide, by decide⟩

/-- C7 (amended): an out-of-bounds `destinationIndex` on a cross-column
move is never an error: the move still happens unconditionally. On a
canonically numbered destination column (orders contiguous from 0, as the
code leaves them after any move) the task lands at the clamped position
`min destinationIndex columnLength` of the destination sequence — but the
stored `order` value is the raw `destinationIndex`, not the clamped one,
and on a non-canonical destination even the landing position can differ
from the clamped index. -/
theorem c7_oob_destination_clamped {now : Int} {l : List Task}
    {r : DropResult} {d : DropPos} {task : Task}
    (hdest : r.destination = some d)
    (hn : (l.map Task.id).Nodup)
    (hfind : l.find? (fun t => t.id == r.draggableId) = some task)
    (hsrc : r.source.droppableId = task.status)
    (hvs : isValidStatus task.status = true)
    (hvd : isValidStatus d.droppableId = true)
    (hne : d.droppableId ≠ task.status)
    (hcanD : canonicalCol d.droppableId l) :
    ∃ u, handleDragEnd now l r = .moved u ∧
      colIds d.droppableId u =
        spliceInsert (colIds d.droppableId l) d.index task.id ∧
      (colIds d.droppableId u)[min d.index (col d.droppableId l).length]? =
        some task.id ∧
      (u.find? (fun t => t.id == r.draggableId)).map Task.order =
        some (some (d.index : Int)) := by
  have hst : task.status = r.source.droppableId := hsrc.symm
  have hsd : r.source.droppableId ≠ d.droppableId := by
    rw [hsrc]
    exact fun h => hne h.symm
  have hdisp : handleDragEnd now l r = .moved (crossColumnMove now l
      r.draggableId r.source.droppableId d.droppableId r.source.index
      d.index) :=
    handleDragEnd_eq_cross hdest hfind (by rw [hsrc]; exact hvs) hvd
      (fun h => hne (hsrc ▸ h))
  have htid : task.id = r.draggableId := by
    simpa [beq_iff_eq] using List.find?_some hfind
  refine ⟨_, hdisp, ?_, ?_, ?_⟩
  · rw [htid]
    exact crossMove_colIds_dest hn hfind hst hsd hcanD
  · rw [crossMove_colIds_dest hn hfind hst hsd hcanD, ← colIds_length, ← htid]
    exact spliceInsert_getElem_min _ _ _
  · rw [crossMove_moved hn hfind hst hsd, Option.map_some', moveWrite_order]

/-- C7 witness: dropping `t1` (the only `todo` task) onto the empty `done`
column at index 7 — far out of bounds — still moves it: it lands at the
clamped position `min 7 0 = 0` of `done`, and its stored order is the raw 7. -/
theorem c7_oob_destination_clamped_witness :
    (∃ u, handleDragEnd 9 exSolo ⟨some ⟨"done", 7⟩, ⟨"todo", 0⟩, "t1"⟩ =
        .moved u ∧
      colIds "done" u = spliceInsert (colIds "done" exSolo) 7 "t1" ∧
      (colIds "done" u)[min 7 (col "done" exSolo).length]? = some "t1" ∧
      (u.find? (fun t => t.id == "t1")).map Task.order =
        some (some (7 : Int))) ∧
    min 7 (col "done" exSolo).length = 0 :=
  ⟨c7_oob_destination_clamped
    (show (DropResult.mk (some ⟨"done", 7⟩) ⟨"todo", 0⟩ "t1").destination =
      some ⟨"done", 7⟩ from rfl)
    (show (exSolo.map Task.id).Nodup by decide)
    (show exSolo.find? (fun t => t.id == "t1") =
      some (mkTask "t1" "todo" (some 0) 1) by decide)
    rfl (by decide) (by decide) (by decide)
    (canonical_of_orders (show (col "done" exSolo).map Task.order =
      (List.range 0).map (fun k => some ((k : Nat) : Int)) by decide)),
   by decide⟩

/-- C7 counterexample to the unamended claim: the operation does NOT proceed
"as a normal move with the clamped index" — dropping at out-of-bounds index 7
emits a different update set than dropping at the clamped index 0, because the
stored order is the raw destination index. -/
theorem c7_counterexample :
    emittedUpdates exSolo
        (handleDragEnd 9 exSolo ⟨some ⟨"done", 7⟩, ⟨"todo", 0⟩, "t1"⟩) ≠
      emittedUpdates exSolo
        (handleDragEnd 9 exSolo ⟨some ⟨"done", 0⟩, ⟨"todo", 0⟩, "t1"⟩) := by
  decide

/-- C10: `updateTask` rewrites at most the tasks whose id matches: every
task with a different id is returned unchanged, field for field, at its
position; and when no task carries the id, the task list is written back
unchanged (and the function is total — no error is raised). -/
theorem c10_updateTask_frame (now : Int) (tasks : List Task) (id : String)
    (p : TaskPatch) :
    (∀ (i : Nat) (t : Task), tasks[i]? = some t → t.id ≠ id →
      (appUpdateTask now tasks id p)[i]? = some t) ∧
    ((∀ t ∈ tasks, t.id ≠ id) → appUpdateTask now tasks id p = tasks) := by
  constructor
  · intro i t hi hne
    unfold appUpdateTask
    rw [List.getElem?_map, hi]
    have hb : (t.id == id) = false := beq_eq_false_iff_ne.mpr hne
    simp only [hb, Bool.false_eq_true, if_false, Option.map_some']
  · intro hall
    unfold appUpdateTask
    apply map_eq_self
    intro t ht
    have hb : (t.id == id) = false := beq_eq_false_iff_ne.mpr (hall t ht)
    simp only [hb, Bool.false_eq_true, if_false]

/-- C10 witness: patching task `b` of the two-task board leaves task `a`
untouched at its position, and patching an unknown id is the identity. -/
theorem c10_updateTask_frame_witness :
    (appUpdateTask 9 exTwo "b" { order := some (some 5) })[0]? =
      some (mkTask "a" "todo" (some 0) 1) ∧
    appUpdateTask 9 exTwo "zz" { order := some (some 5) } = exTwo :=
  ⟨(c10_updateTask_frame 9 exTwo "b" { order := some (some 5) }).1 0
      (mkTask "a" "todo" (some 0) 1) (by decide) (by decide),
    (c10_updateTask_frame 9 exTwo "zz" { order := some (some 5) }).2
      (by decide)⟩

/-- C3 (amended): a cross-column move of an existing task, on columns whose
orders are canonically numbered (contiguous from 0), sets the moved task's
status to the destination column and its order to `destinationIndex`,
removes it from the source sequence and inserts it at `destinationIndex` of
the destination sequence, and renumbers both columns contiguously from 0
(source `0..n-2`, destination `0..m`); other columns are untouched. Without
the canonicity hypotheses the contiguity conclusions are false, because the
code renumbers shifted tasks by their position, leaving non-canonical
orders of unshifted tasks in place. -/
theorem c3_cross_column {now : Int} {l : List Task} {r : DropResult}
    {d : DropPos} {task : Task}
    (hdest : r.destination = some d)
    (hn : (l.map Task.id).Nodup)
    (hfind : l.find? (fun t => t.id == r.draggableId) = some task)
    (hsrc : r.source.droppableId = task.status)
    (hsi : (col task.status l)[r.source.index]? = some task)
    (hvs : isValidStatus task.status = true)
    (hvd : isValidStatus d.droppableId = true)
    (hne : d.droppableId ≠ task.status)
    (hcanS : canonicalCol task.status l)
    (hcanD : canonicalCol d.droppableId l)
    (hdi : d.index ≤ (col d.droppableId l).length) :
    ∃ u, handleDragEnd now l r = .moved u ∧
      u.find? (fun t => t.id == r.draggableId) =
        some (moveWrite now d.droppableId d.index task) ∧
      (moveWrite now d.droppableId d.index task).status = d.droppableId ∧
      (moveWrite now d.droppableId d.index task).order =
        some ((d.index : Nat) : Int) ∧
      colIds task.status u =
        spliceRemove (colIds task.status l) r.source.index ∧
      colIds d.droppableId u =
        spliceInsert (colIds d.droppableId l) d.index task.id ∧
      (col task.status u).map Task.order =
        (List.range ((col task.status l).length - 1)).map
          (fun k => some ((k : Nat) : Int)) ∧
      (col d.droppableId u).map Task.order =
        (List.range ((col d.droppableId l).length + 1)).map
          (fun k => some ((k : Nat) : Int)) ∧
      ∀ s2, s2 ≠ task.status → s2 ≠ d.droppableId → col s2 u = col s2 l := by
  have hst : task.status = r.source.droppableId := hsrc.symm
  have hsd : r.source.droppableId ≠ d.droppableId := by
    rw [hsrc]
    exact fun h => hne h.symm
  have htid : task.id = r.draggableId := by
    simpa [beq_iff_eq] using List.find?_some hfind
  have hcanS2 : canonicalCol r.source.droppableId l := by
    rw [hsrc]
    exact hcanS
  have hsi2 : (col r.source.droppableId l)[r.source.index]? = some task := by
    rw [hsrc]
    exact hsi
  have hdisp : handleDragEnd now l r = .moved (crossColumnMove now l
      r.draggableId r.source.droppableId d.droppableId r.source.index
      d.index) :=
    handleDragEnd_eq_cross hdest hfind (by rw [hsrc]; exact hvs) hvd
      (fun h => hne (hsrc ▸ h))
  refine ⟨_, hdisp, ?_, moveWrite_status now d.droppableId d.index task,
    moveWrite_order now d.droppableId d.index task, ?_, ?_, ?_, ?_, ?_⟩
  · exact crossMove_moved hn hfind hst hsd
  · rw [← hsrc]
    exact crossMove_colIds_src hn hfind hst hsd hcanS2 hsi2
  · rw [htid]
    exact crossMove_colIds_dest hn hfind hst hsd hcanD
  · rw [← hsrc]
    exact crossMove_orders_src hn hfind hst hsd hcanS2 hsi2
  · exact crossMove_orders_dest hn hfind hst hsd hcanD hdi
  · intro s2 h2s h2d
    exact crossMove_col_other hn hfind hst hsd s2 (by rw [hsrc]; exact h2s)
      h2d

/-- C3 witness: the spec's example — moving `a` of `[a(todo,0), b(done,0)]`
to `done` index 0 sets `a.status = done`, `a.order = 0`, shifts `b` to
order 1, and empties the `todo` column. -/
theorem c3_cross_column_witness :
    (∃ u, handleDragEnd 9 exTwo ⟨some ⟨"done", 0⟩, ⟨"todo", 0⟩, "a"⟩ =
        .moved u ∧
      u.find? (fun t => t.id == "a") =
        some (moveWrite 9 "done" 0 (mkTask "a" "todo" (some 0) 1)) ∧
      (moveWrite 9 "done" 0 (mkTask "a" "todo" (some 0) 1)).status =
        "done" ∧
      (moveWrite 9 "done" 0 (mkTask "a" "todo" (some 0) 1)).order =
        some ((0 : Nat) : Int) ∧
      colIds "todo" u = spliceRemove (colIds "todo" exTwo) 0 ∧
      colIds "done" u = spliceInsert (colIds "done" exTwo) 0 "a" ∧
      (col "todo" u).map Task.order =
        (List.range ((col "todo" exTwo).length - 1)).map
          (fun k => some ((k : Nat) : Int)) ∧
      (col "done" u).map Task.order =
        (List.range ((col "done" exTwo).length + 1)).map
          (fun k => some ((k : Nat) : Int)) ∧
      ∀ s2, s2 ≠ "todo" → s2 ≠ "done" → col s2 u = col s2 exTwo) ∧
    colIds "todo" (resultTasks exTwo
      (handleDragEnd 9 exTwo ⟨some ⟨"done", 0⟩, ⟨"todo", 0⟩, "a"⟩)) = [] ∧
    colIds "done" (resultTasks exTwo
      (handleDragEnd 9 exTwo ⟨some ⟨"done", 0⟩, ⟨"todo", 0⟩, "a"⟩)) =
      ["a", "b"] ∧
    (col "done" (resultTasks exTwo
      (handleDragEnd 9 exTwo ⟨some ⟨"done", 0⟩, ⟨"todo", 0⟩, "a"⟩))).map
      Task.order = [some 0, some 1] :=
  ⟨c3_cross_column
    (show (DropResult.mk (some ⟨"done", 0⟩) ⟨"todo", 0⟩ "a").destination =
      some ⟨"done", 0⟩ from rfl)
    (show (exTwo.map Task.id).Nodup by decide)
    (show exTwo.find? (fun t => t.id == "a") =
      some (mkTask "a" "todo" (some 0) 1) by decide)
    rfl
    (show (col "todo" exTwo)[0]? = some (mkTask "a" "todo" (some 0) 1)
      by decide)
    (by decide) (by decide) (by decide)
    (canonical_of_orders (show (col "todo" exTwo).map Task.order =
      (List.range 1).map (fun k => some ((k : Nat) : Int)) by decide))
    (canonical_of_orders (show (col "done" exTwo).map Task.order =
      (List.range 1).map (fun k => some ((k : Nat) : Int)) by decide))
    (by decide),
   by decide, by decide, by decide⟩

/-- C3 counterexample to the unamended claim: on a board whose `done` column
is numbered non-contiguously (`x` has order 5), moving `T` to `done` index 1
leaves the destination orders `[1, 5]` — not the contiguous `0..m` the claim
promises — because `x`, sitting before the insertion point, is never
renumbered. -/
theorem c3_counterexample :
    (col "done" (resultTasks exDest5
        (handleDragEnd 9 exDest5 ⟨some ⟨"done", 1⟩, ⟨"todo", 0⟩, "T"⟩))).map
        Task.order ≠
      (List.range ((col "done" exDest5).length + 1)).map
        (fun k => some ((k : Nat) : Int)) := by
  decide

/-- C1 (amended): for a valid move of an existing task — same-column (to a
different in-range index) or cross-column (to an index at most the column
length) — provided both affected columns are canonically numbered (orders
contiguous from 0), the handler performs the move and the resulting columns
are exactly the sequence the move implies: the moved task's id sits at
`destinationIndex` of the destination column, every other task keeps its
previous relative order within its column, and untouched columns are
unchanged. Without the canonicity premise the relative-order conclusion is
false for cross-column moves. -/
theorem c1_move_guarantee {now : Int} {l : List Task} {r : DropResult}
    {d : DropPos} {task : Task}
    (hdest : r.destination = some d)
    (hn : (l.map Task.id).Nodup)
    (hfind : l.find? (fun t => t.id == r.draggableId) = some task)
    (hsrc : r.source.droppableId = task.status)
    (hsi : (col task.status l)[r.source.index]? = some task)
    (hvs : isValidStatus task.status = true)
    (hvd : isValidStatus d.droppableId = true)
    (hcanS : canonicalCol task.status l)
    (hcanD : canonicalCol d.droppableId l)
    (hcase : (d.droppableId = task.status ∧ d.index ≠ r.source.index ∧
        d.index < (col task.status l).length) ∨
      (d.droppableId ≠ task.status ∧
        d.index ≤ (col d.droppableId l).length)) :
    ∃ u, handleDragEnd now l r = .moved u ∧
      (colIds d.droppableId u)[d.index]? = some task.id ∧
      (colIds task.status u).filter (fun x => x != task.id) =
        (colIds task.status l).filter (fun x => x != task.id) ∧
      (colIds d.droppableId u).filter (fun x => x != task.id) =
        (colIds d.droppableId l).filter (fun x => x != task.id) ∧
      ∀ s2, s2 ≠ task.status → s2 ≠ d.droppableId → col s2 u = col s2 l := by
  have htid : task.id = r.draggableId := by
    simpa [beq_iff_eq] using List.find?_some hfind
  have hsi2 : (col r.source.droppableId l)[r.source.index]? = some task := by
    rw [hsrc]
    exact hsi
  rcases hcase with ⟨hd1, hni, hdi⟩ | ⟨hne, hdi⟩
  · have hdisp : handleDragEnd now l r =
        match sameColumnReorder now l r.source.droppableId r.source.index
            d.index with
        | none => DropOutcome.crashed
        | some u => DropOutcome.moved u :=
      handleDragEnd_eq_same hdest hfind (by rw [hsrc]; exact hvs)
        (hd1.trans hsrc.symm) hni
    obtain ⟨u, hstep, hids, hords, hother⟩ :=
      sameMove_facts now d.index hn hsi2
    have hmoved : handleDragEnd now l r = .moved u := by
      rw [hdisp, hstep]
    have hdi2 : d.index < (col r.source.droppableId l).length := by
      rw [hsrc]
      exact hdi
    refine ⟨u, hmoved, ?_, ?_, ?_, ?_⟩
    · rw [hd1, ← hsrc, hids]
      apply spliceInsert_getElem_self
      rw [spliceRemove_length (colIds_getElem hsi2), colIds_length]
      omega
    · rw [← hsrc, hids,
        filter_spliceInsert (fun x => x != task.id) _ d.index task.id
          (by simp)]
      exact filter_spliceRemove (fun x => x != task.id)
        (colIds_getElem hsi2) (by simp)
    · rw [hd1, ← hsrc, hids,
        filter_spliceInsert (fun x => x != task.id) _ d.index task.id
          (by simp)]
      exact filter_spliceRemove (fun x => x != task.id)
        (colIds_getElem hsi2) (by simp)
    · intro s2 h2s h2d
      exact hother s2 (by rw [hsrc]; exact h2s)
  · have hst : task.status = r.source.droppableId := hsrc.symm
    have hsd : r.source.droppableId ≠ d.droppableId := by
      rw [hsrc]
      exact fun h => hne h.symm
    have hcanS2 : canonicalCol r.source.droppableId l := by
      rw [hsrc]
      exact hcanS
    have hdisp : handleDragEnd now l r = .moved (crossColumnMove now l
        r.draggableId r.source.droppableId d.droppableId r.source.index
        d.index) :=
      handleDragEnd_eq_cross hdest hfind (by rw [hsrc]; exact hvs) hvd
        (fun h => hne (hsrc ▸ h))
    refine ⟨_, hdisp, ?_, ?_, ?_, ?_⟩
    · rw [crossMove_colIds_dest hn hfind hst hsd hcanD, ← htid]
      exact spliceInsert_getElem_self (by rw [colIds_length]; exact hdi)
    · rw [← hsrc, crossMove_colIds_src hn hfind hst hsd hcanS2 hsi2]
      exact filter_spliceRemove (fun x => x != task.id)
        (colIds_getElem hsi2) (by simp)
    · rw [crossMove_colIds_dest hn hfind hst hsd hcanD, ← htid]
      exact filter_spliceInsert (fun x => x != task.id) _ d.index task.id
        (by simp)
    · intro s2 h2s h2d
      exact crossMove_col_other hn hfind hst hsd s2 (by rw [hsrc]; exact h2s)
        h2d

/-- C1 witness: on the canonically numbered board `exRound`, moving `z`
from `done` index 0 to `todo` index 1 puts `z` at position 1 of `todo`
(yielding `[p, z, q]`), keeps every other task's relative order, and leaves
the other columns alone. -/
theorem c1_move_guarantee_witness :
    (∃ u, handleDragEnd 9 exRound ⟨some ⟨"todo", 1⟩, ⟨"done", 0⟩, "z"⟩ =
        .moved u ∧
      (colIds "todo" u)[1]? = some "z" ∧
      (colIds "done" u).filter (fun x => x != "z") =
        (colIds "done" exRound).filter (fun x => x != "z") ∧
      (colIds "todo" u).filter (fun x => x != "z") =
        (colIds "todo" exRound).filter (fun x => x != "z") ∧
      ∀ s2, s2 ≠ "done" → s2 ≠ "todo" → col s2 u = col s2 exRound) ∧
    colIds "todo" (resultTasks exRound
      (handleDragEnd 9 exRound ⟨some ⟨"todo", 1⟩, ⟨"done", 0⟩, "z"⟩)) =
      ["p", "z", "q"] :=
  ⟨c1_move_guarantee
    (show (DropResult.mk (some ⟨"todo", 1⟩) ⟨"done", 0⟩ "z").destination =
      some ⟨"todo", 1⟩ from rfl)
    (show (exRound.map Task.id).Nodup by decide)
    (show exRound.find? (fun t => t.id == "z") =
      some (mkTask "z" "done" (some 0) 3) by decide)
    rfl
    (show (col "done" exRound)[0]? = some (mkTask "z" "done" (some 0) 3)
      by decide)
    (by decide) (by decide)
    (canonical_of_orders (show (col "done" exRound).map Task.order =
      (List.range 1).map (fun k => some ((k : Nat) : Int)) by decide))
    (canonical_of_orders (show (col "todo" exRound).map Task.order =
      (List.range 2).map (fun k => some ((k : Nat) : Int)) by decide))
    (Or.inr ⟨by decide, by decide⟩),
   by decide⟩

/-- C1 counterexample to the unamended claim: on a board whose `todo`
column is legally but non-contiguously numbered (orders 10, 20, 30), moving
`T` out to `done` renumbers the tasks after it by position (`q` gets
order 1) while `p` keeps order 10 — so the remaining tasks' relative order
flips from `[p, q]` to `[q, p]`. -/
theorem c1_counterexample :
    (colIds "todo" (resultTasks exGap
        (handleDragEnd 9 exGap ⟨some ⟨"done", 0⟩, ⟨"todo", 1⟩, "T"⟩))).filter
        (fun x => x != "T") ≠
      (colIds "todo" exGap).filter (fun x => x != "T") := by
  decide

/-- C9 (amended): on a board with distinct ids whose columns `A` and `B`
are canonically numbered (orders contiguous from 0), moving a task from
column `A` index `i` to column `B` index `j` and then back to `A` index `i`
restores column `A`'s id sequence exactly. Without the canonicity premise
the round trip can permute the remaining tasks of `A`. -/
theorem c9_round_trip (now1 now2 : Int) {l : List Task} {A B taskId : String}
    {i j : Nat} {task : Task}
    (hn : (l.map Task.id).Nodup)
    (hfind : l.find? (fun t => t.id == taskId) = some task)
    (hst : task.status = A) (hAB : A ≠ B)
    (hsi : (col A l)[i]? = some task)
    (hvA : isValidStatus A = true) (hvB : isValidStatus B = true)
    (hcanA : canonicalCol A l) (hcanB : canonicalCol B l)
    (hj : j ≤ (col B l).length) :
    ∃ u1 u2,
      handleDragEnd now1 l ⟨some ⟨B, j⟩, ⟨A, i⟩, taskId⟩ = .moved u1 ∧
      handleDragEnd now2 u1 ⟨some ⟨A, i⟩, ⟨B, j⟩, taskId⟩ = .moved u2 ∧
      colIds A u2 = colIds A l := by
  set u1 := crossColumnMove now1 l taskId A B i j with hu1
  set u2 := crossColumnMove now2 u1 taskId B A j i with hu2
  have htid : task.id = taskId := by
    simpa [beq_iff_eq] using List.find?_some hfind
  have hm1 : handleDragEnd now1 l ⟨some ⟨B, j⟩, ⟨A, i⟩, taskId⟩ =
      .moved u1 :=
    @handleDragEnd_eq_cross now1 l ⟨some ⟨B, j⟩, ⟨A, i⟩, taskId⟩ ⟨B, j⟩ task
      rfl hfind hvA hvB (fun h => hAB h.symm)
  have hn1 : (u1.map Task.id).Nodup := by
    rw [hu1, crossMove_ids hn]
    exact hn
  have hfind1 : u1.find? (fun t => t.id == taskId) =
      some (moveWrite now1 B j task) := by
    rw [hu1]
    exact crossMove_moved hn hfind hst hAB
  have hstm : (moveWrite now1 B j task).status = B :=
    moveWrite_status now1 B j task
  have hcanB1 : canonicalCol B u1 := by
    rw [hu1]
    exact canonical_of_orders
      (crossMove_orders_dest hn hfind hst hAB hcanB hj)
  have hcanA1 : canonicalCol A u1 := by
    rw [hu1]
    exact canonical_of_orders
      (crossMove_orders_src hn hfind hst hAB hcanA hsi)
  have hm2 : handleDragEnd now2 u1 ⟨some ⟨A, i⟩, ⟨B, j⟩, taskId⟩ =
      .moved u2 :=
    @handleDragEnd_eq_cross now2 u1 ⟨some ⟨A, i⟩, ⟨B, j⟩, taskId⟩ ⟨A, i⟩
      (moveWrite now1 B j task) rfl hfind1 hvB hvA hAB
  refine ⟨u1, u2, hm1, hm2, ?_⟩
  have h2 : colIds A u2 = spliceInsert (colIds A u1) i taskId := by
    rw [hu2]
    exact crossMove_colIds_dest hn1 hfind1 hstm (fun h => hAB h.symm) hcanA1
  have h1 : colIds A u1 = spliceRemove (colIds A l) i := by
    rw [hu1]
    exact crossMove_colIds_src hn hfind hst hAB hcanA hsi
  rw [h2, h1]
  apply spliceInsert_spliceRemove_self
  rw [← htid]
  exact colIds_getElem hsi

/-- C9 witness: on the canonically numbered board `exRound`, moving `q`
from `todo` index 1 to `done` index 1 and back to `todo` index 1 restores
the `todo` id sequence `[p, q]`. -/
theorem c9_round_trip_witness :
    (∃ u1 u2,
      handleDragEnd 9 exRound ⟨some ⟨"done", 1⟩, ⟨"todo", 1⟩, "q"⟩ =
        .moved u1 ∧
      handleDragEnd 10 u1 ⟨some ⟨"todo", 1⟩, ⟨"done", 1⟩, "q"⟩ =
        .moved u2 ∧
      colIds "todo" u2 = colIds "todo" exRound) ∧
    colIds "todo" exRound = ["p", "q"] :=
  ⟨c9_round_trip 9 10
    (show (exRound.map Task.id).Nodup by decide)
    (show exRound.find? (fun t => t.id == "q") =
      some (mkTask "q" "todo" (some 1) 2) by decide)
    rfl
    (show "todo" ≠ "done" by decide)
    (show (col "todo" exRound)[1]? = some (mkTask "q" "todo" (some 1) 2)
      by decide)
    (by decide) (by decide)
    (canonical_of_orders (show (col "todo" exRound).map Task.order =
      (List.range 2).map (fun k => some ((k : Nat) : Int)) by decide))
    (canonical_of_orders (show (col "done" exRound).map Task.order =
      (List.range 1).map (fun k => some ((k : Nat) : Int)) by decide))
    (show (1 : Nat) ≤ (col "done" exRound).length by decide),
   by decide⟩

/-- C9 counterexample to the unamended claim: on a board whose `todo`
column is legally but non-contiguously numbered (orders 10, 20, 30), moving
`T` to `done` index 0 and straight back to `todo` index 1 does NOT restore
the column: the remaining tasks were renumbered asymmetrically on the way
out, so the round trip yields `[T, q, p]` instead of `[p, T, q]`. -/
theorem c9_counterexample :
    colIds "todo" (resultTasks (resultTasks exGapRound
        (handleDragEnd 9 exGapRound ⟨some ⟨"done", 0⟩, ⟨"todo", 1⟩, "T"⟩))
      (handleDragEnd 10 (resultTasks exGapRound
          (handleDragEnd 9 exGapRound ⟨some ⟨"done", 0⟩, ⟨"todo", 1⟩, "T"⟩))
        ⟨some ⟨"todo", 1⟩, ⟨"done", 0⟩, "T"⟩)) ≠
      colIds "todo" exGapRound := by
  decide

end LifePM
